import Mathlib

/-!
Verification of the toy-cheri capability machine core against its
specification.  The Rust sources are shallowly embedded: machine integers
become `Nat` with explicit masking at the points where the code masks or
wraps, fallible operations return `Except`, and mutation is explicit state
passing.  Reference configuration (src/vm/src/int.rs): `UGran = u128`,
`UAddr = u64`; `Address::BITS = 16` (src/vm/src/capability.rs).
-/

deriving instance DecidableEq for Except

namespace ToyCheri

/-! ## Integer primitives (src/vm/src/int.rs) -/

/-- Number of bytes in one granule (`UGRAN_SIZE`, `UGran = u128`). -/
def UGRAN_SIZE : Nat := 16

/-- Number of bytes in one address (`UADDR_SIZE`, `UAddr = u64`). -/
def UADDR_SIZE : Nat := 8

/-- Modulus of the granule word type `u128`. -/
def granMod : Nat := 2 ^ 128

/-- Modulus of the address word type `u64`. -/
def uaddrMod : Nat := 2 ^ 64

/-- The uninitialized byte pattern `UNINIT_BYTE`. -/
def UNINIT_BYTE : Nat := 0x55

/-- `UNINIT`, a `UAddr` made of `UNINIT_BYTE` repeated. -/
def UNINIT : Nat := 0x5555555555555555

/-- Reinterpret an unsigned `u128` bit pattern as the signed value of `i128`
(`gran_sign`). -/
def gran_sign (u : Nat) : Int :=
  if u % granMod < 2 ^ 127 then (u % granMod : Int)
  else (u % granMod : Int) - (granMod : Int)

/-- Reinterpret a signed `i128` value as its `u128` bit pattern
(`gran_unsign`). -/
def gran_unsign (s : Int) : Nat := (s.emod (granMod : Int)).toNat

/-- Reinterpret an unsigned `u64` bit pattern as the signed value of `i64`
(`addr_sign`). -/
def addr_sign (u : Nat) : Int :=
  if u % uaddrMod < 2 ^ 63 then (u % uaddrMod : Int)
  else (u % uaddrMod : Int) - (uaddrMod : Int)

/-! ## Alignment (src/vm/src/abi.rs) -/

/-- `Align` stores the base-two logarithm of the alignment (a `u8` in the
source; `Align::new` only accepts powers of two). -/
structure Align where
  exp : Nat
  deriving DecidableEq, Repr

namespace Align

/-- `Align::get`: the alignment value `2^exp`. -/
def get (a : Align) : Nat := 2 ^ a.exp

/-- `Align::new`: accepts a power of two, storing its `ilog2`. -/
def new (align : Nat) : Option Align :=
  if 0 < align ∧ align &&& (align - 1) = 0 then some ⟨Nat.log2 align⟩ else none

/-- `Align::MIN = Align::new(1)`. -/
def MIN : Align := ⟨0⟩

end Align

/-- `Layout`: a `(size, align)` pair (sizes are `UAddr`). -/
structure Layout where
  size : Nat
  align : Align
  deriving DecidableEq, Repr

/-! ## Address (src/vm/src/capability.rs) -/

/-- `Address`: a `UAddr`-wide value (`raw < 2^64` at every construction
site), masked to `Address::BITS = 16` bits by `get`. -/
structure Address where
  raw : Nat
  deriving DecidableEq, Repr

namespace Address

/-- `Address::BITS`. -/
def BITS : Nat := 16

/-- `Address::get`: the raw word masked to the low `BITS` bits. -/
def get (a : Address) : Nat := a.raw % 2 ^ 16

/-- `Address::add`: wrapping `u64` addition. -/
def add (a : Address) (offset : Nat) : Address := ⟨(a.raw + offset) % uaddrMod⟩

/-- `Address::sub`: wrapping `u64` subtraction. -/
def sub (a : Address) (offset : Nat) : Address :=
  ⟨(a.raw + uaddrMod - offset % uaddrMod) % uaddrMod⟩

/-- `Address::offset`: wrapping add of a signed `SAddr`. -/
def offset (a : Address) (off : Int) : Address :=
  ⟨(((a.raw : Int) + off).emod (uaddrMod : Int)).toNat⟩

/-- The granule index holding this address (`Address::gran`). -/
def gran (a : Address) : Nat := a.get / UGRAN_SIZE

/-- `Address::is_aligned_to`. -/
def is_aligned_to (a : Address) (al : Align) : Bool := a.get % al.get == 0

/-- `Address::align_up`: `next_multiple_of` on the masked value. -/
def align_up (a : Address) (al : Align) : Address :=
  ⟨((a.get + al.get - 1) / al.get) * al.get⟩

/-- `Address::align_to`: identity when aligned, `align_up` otherwise. -/
def align_to (a : Address) (al : Align) : Address :=
  if a.is_aligned_to al then a else a.align_up al

/-- `Address::align_down`: keep only the bits at and above the alignment. -/
def align_down (a : Address) (al : Align) : Address :=
  ⟨a.get - a.get % al.get⟩

/-- Derived `PartialEq for Address` compares the masked values. -/
def eqv (a b : Address) : Bool := a.get == b.get

end Address

/-- `Granule::addr` (src/vm/src/capability.rs line 117): note the source
uses `checked_add`, so granule `g` maps to byte address `g + UGRAN_SIZE`. -/
def Granule.addr (g : Nat) : Address := ⟨g + UGRAN_SIZE⟩

/-! ## Permissions (src/vm/src/capability.rs, bitflags) -/

/-- `Permissions`: a `u8` bit field over READ, WRITE, EXEC, SEAL, UNSEAL. -/
structure Permissions where
  bits : Nat
  deriving DecidableEq, Repr

namespace Permissions

def READ : Permissions := ⟨0b00000001⟩
def WRITE : Permissions := ⟨0b00000010⟩
def EXEC : Permissions := ⟨0b00000100⟩
def SEAL : Permissions := ⟨0b00001000⟩
def UNSEAL : Permissions := ⟨0b00010000⟩

/-- `Permissions::empty()`. -/
def empty : Permissions := ⟨0⟩

/-- `Permissions::all()`: union of the five defined flags. -/
def all : Permissions := ⟨0b00011111⟩

/-- bitflags `contains`: other's bits are all present. -/
def contains (p o : Permissions) : Bool := p.bits &&& o.bits == o.bits

/-- bitflags `from_bits_retain` (the source casts the word to `u8` before
calling it, so the argument is already masked to 8 bits). -/
def from_bits_retain (n : Nat) : Permissions := ⟨n⟩

/-- bitflags `from_bits_truncate`: keep only the defined flags. -/
def from_bits_truncate (n : Nat) : Permissions := ⟨n &&& 0b00011111⟩

/-- bitflags union (`|`). -/
def union (p o : Permissions) : Permissions := ⟨p.bits ||| o.bits⟩

/-- `Permissions::r`. -/
def r (p : Permissions) : Bool := p.contains READ

/-- `Permissions::w`. -/
def w (p : Permissions) : Bool := p.contains WRITE

/-- `Permissions::x`. -/
def x (p : Permissions) : Bool := p.contains EXEC

end Permissions

/-! ## Object types (src/vm/src/capability.rs) -/

/-- `OType`: a `u8` object type; `UNSEALED = u8::MAX` is the sentinel. -/
structure OType where
  repr : Nat
  deriving DecidableEq, Repr

namespace OType

/-- `OType::BITS`. -/
def BITS : Nat := 8

/-- `OType::GRANULARITY = 2^BITS`. -/
def GRANULARITY : Nat := 256

/-- `OType::UNSEALED`. -/
def UNSEALED : OType := ⟨255⟩

/-- `OType::new`. -/
def new (repr : Nat) : OType := ⟨repr⟩

/-- `OType::try_new`: the address must be aligned to
`2^(Address::BITS - OType::BITS) = 256`. -/
def try_new (addr : Address) : Option OType :=
  if addr.is_aligned_to ⟨8⟩ then some (new (addr.get / GRANULARITY)) else none

/-- `OType::get_addr`. -/
def get_addr (o : OType) : Address := ⟨o.repr * GRANULARITY⟩

/-- `OType::is_unsealed`. -/
def is_unsealed (o : OType) : Bool := o.repr == 255

/-- `OType::is_sealed`. -/
def is_sealed (o : OType) : Bool := !o.is_unsealed

/-- Modelled from the spec: `OType::VALID_ALIGN` is referenced by
`alloc::init` but absent from src/vm/src/capability.rs; the spec says a
valid sealing address must be aligned to `OType::GRANULARITY = 256`. -/
def VALID_ALIGN : Align := ⟨8⟩

end OType

/-! ## Capability (src/vm/src/capability.rs) -/

/-- `Capability`: word-packed `(addr, start, endb, perms, otype)`. -/
structure Capability where
  addr : Address
  start : Address
  endb : Address
  perms : Permissions
  otype : OType
  deriving DecidableEq, Repr

namespace Capability

/-- `Capability::INVALID`: uninit addresses, empty permissions, unsealed. -/
def INVALID : Capability :=
  ⟨⟨UNINIT⟩, ⟨UNINIT⟩, ⟨UNINIT⟩, Permissions.empty, OType.UNSEALED⟩

/-- `Capability::from_ugran`: inverse shift/mask decode of one grain. -/
def from_ugran (ugran : Nat) : Capability where
  addr := ⟨(ugran >>> 0) &&& (2 ^ 16 - 1)⟩
  start := ⟨(ugran >>> 16) &&& (2 ^ 16 - 1)⟩
  endb := ⟨(ugran >>> 32) &&& (2 ^ 16 - 1)⟩
  perms := Permissions.from_bits_retain ((ugran >>> 48) &&& (2 ^ 8 - 1))
  otype := OType.new ((ugran >>> 56) &&& (2 ^ 8 - 1))

/-- `Capability::to_ugran`: shift/mask encode into one grain. -/
def to_ugran (c : Capability) : Nat :=
  c.addr.get |||
    (c.start.get <<< 16) |||
    (c.endb.get <<< 32) |||
    (c.perms.bits <<< 48) |||
    (c.otype.repr <<< 56)

/-- `Capability::set_addr`. -/
def set_addr (c : Capability) (new : Address) : Capability := { c with addr := new }

/-- `Capability::span_len`: saturating `endb - start` on masked values. -/
def span_len (c : Capability) : Nat := c.endb.get - c.start.get

/-- `Capability::is_bounded`: `start ≤ addr ≤ endb`. -/
def is_bounded (c : Capability) : Bool :=
  c.start.get ≤ c.addr.get && c.addr.get ≤ c.endb.get

/-- `Capability::is_bounded_with_len`. -/
def is_bounded_with_len (c : Capability) (len : Nat) : Bool :=
  if len > c.endb.get - c.addr.get then false
  else c.is_bounded && (c.set_addr (c.addr.add len)).is_bounded

/-- Derived `PartialEq for Capability` (addresses compare masked). -/
def eqv (a b : Capability) : Bool :=
  a.addr.eqv b.addr && a.start.eqv b.start && a.endb.eqv b.endb &&
    a.perms.bits == b.perms.bits && a.otype.repr == b.otype.repr

end Capability

/-! ## TaggedCapability (src/vm/src/capability.rs) -/

/-- `TaggedCapability`: a capability bundled with its validity tag bit. -/
structure TaggedCapability where
  capa : Capability
  valid : Bool
  deriving DecidableEq, Repr

namespace TaggedCapability

/-- `TaggedCapability::INVALID`. -/
def INVALID : TaggedCapability := ⟨Capability.INVALID, false⟩

/-- `TaggedCapability::new`. -/
def new (capability : Capability) (valid : Bool) : TaggedCapability :=
  ⟨capability, valid⟩

/-- `TaggedCapability::from_ugran` (always untagged). -/
def from_ugran (ugran : Nat) : TaggedCapability :=
  new (Capability.from_ugran ugran) false

/-- `TaggedCapability::to_ugran`. -/
def to_ugran (t : TaggedCapability) : Nat := t.capa.to_ugran

/-- `TaggedCapability::is_valid`. -/
def is_valid (t : TaggedCapability) : Bool := t.valid

def addr (t : TaggedCapability) : Address := t.capa.addr

def start (t : TaggedCapability) : Address := t.capa.start

def endb (t : TaggedCapability) : Address := t.capa.endb

def perms (t : TaggedCapability) : Permissions := t.capa.perms

def otype (t : TaggedCapability) : OType := t.capa.otype

/-- `TaggedCapability::set_addr`: validity survives only on an unsealed,
already-valid capability. -/
def set_addr (t : TaggedCapability) (new : Address) : TaggedCapability :=
  ⟨t.capa.set_addr new, t.valid && t.otype.is_unsealed⟩

/-- `TaggedCapability::set_bounds` as written in the source: the new
validity is computed from the narrowing conditions and sealedness only —
the old `valid` field is not consulted. -/
def set_bounds (t : TaggedCapability) (start endb : Address) : TaggedCapability :=
  let valid := t.otype.is_unsealed &&
    start.get ≥ t.start.get && endb.get ≤ t.endb.get && start.get ≤ endb.get
  ⟨⟨t.addr, start, endb, t.perms, t.otype⟩, valid⟩

/-- `TaggedCapability::set_perms`: validity requires unsealed and that the
new permissions do not enable EXEC, WRITE or READ that the old ones lack
(the SEAL and UNSEAL bits are not inspected). -/
def set_perms (t : TaggedCapability) (perms : Permissions) : TaggedCapability :=
  let valid_is_valid := t.otype.is_unsealed &&
    (!perms.x || t.capa.perms.x) &&
    (!perms.w || t.capa.perms.w) &&
    (!perms.r || t.capa.perms.r)
  ⟨⟨t.capa.addr, t.capa.start, t.capa.endb, perms, t.capa.otype⟩,
    t.is_valid && valid_is_valid⟩

/-- `TaggedCapability::set_perms_from`: rederive from `root`. -/
def set_perms_from (t : TaggedCapability) (perms : Permissions)
    (root : TaggedCapability) : TaggedCapability :=
  ((root.set_addr t.addr).set_bounds t.start t.endb).set_perms perms

/-- `TaggedCapability::seal` (named `sealWith` here because `seal` is a
Lean keyword). -/
def sealWith (t : TaggedCapability) (with' : TaggedCapability) : TaggedCapability :=
  let valid := t.is_valid && t.otype.is_unsealed && with'.is_valid &&
    with'.otype.is_unsealed && with'.capa.is_bounded &&
    with'.perms.contains Permissions.SEAL
  match OType.try_new with'.addr with
  | some o => ⟨{ t.capa with otype := o }, valid⟩
  | none => ⟨t.capa, false⟩

/-- `TaggedCapability::unseal` (named `unsealWith` here because `unseal` is
a Lean keyword). -/
def unsealWith (t : TaggedCapability) (with' : TaggedCapability) : TaggedCapability :=
  let valid := t.is_valid && t.otype.is_sealed && with'.is_valid &&
    with'.otype.is_unsealed && with'.capa.is_bounded &&
    with'.perms.contains Permissions.UNSEAL &&
    t.otype.get_addr.get == with'.addr.get
  ⟨{ t.capa with otype := OType.UNSEALED }, valid⟩

def span_len (t : TaggedCapability) : Nat := t.capa.span_len

def is_bounded (t : TaggedCapability) : Bool := t.capa.is_bounded

def is_bounded_with_len (t : TaggedCapability) (len : Nat) : Bool :=
  t.capa.is_bounded_with_len len

end TaggedCapability

/-! ## Struct layout folder (src/vm/src/abi.rs) -/

/-- Doubling search for the least power of two that is at least `n`,
starting from candidate `p`; the fuel is structural so the kernel can
evaluate it, and `np2From_eq` shows fuel `n` always suffices. -/
def np2From (n : Nat) : Nat → Nat → Nat
  | 0, p => p
  | fuel + 1, p => if n ≤ p then p else np2From n fuel (2 * p)

/-- Rust `u64::next_power_of_two`: the least power of two that is at least
`n` (and `1` for `n = 0`). -/
def next_power_of_two (n : Nat) : Nat := np2From n n 1

/-- One iteration bound of the `field_step` alignment loop, with
structural fuel; `field_step_bump_closed` proves fuel `k + 2` always
suffices, so this equals the source's unbounded `while` loop. -/
def field_step_bumpAux : Nat → Nat → Nat → Nat
  | 0, _, cur => cur
  | fuel + 1, k, cur =>
    if cur % 2 ^ k = 0 then cur
    else field_step_bumpAux fuel k (next_power_of_two (cur + 1))

/-- The `while cur_offset % field.align.get() != 0` loop inside
`FieldsLogic::field_step`: repeatedly replace the cursor by
`(cursor + 1).next_power_of_two()` until it is divisible by the alignment
`2 ^ k`. -/
def field_step_bump (k cur : Nat) : Nat := field_step_bumpAux (k + 2) k cur

/-- `FieldStep` (src/vm/src/abi.rs). -/
structure FieldStep where
  field_offset : Nat
  cur_offset : Nat
  deriving DecidableEq, Repr

/-- `FieldsLogic::field_step`: bump the cursor to an aligned offset with
the power-of-two loop, place the field there, then advance by its size. -/
def field_step (field : Layout) (cur_offset : Nat) : FieldStep :=
  let o := field_step_bump field.align.exp cur_offset
  ⟨o, o + field.size⟩

/-- The accumulating loop of `abi::layout`. -/
def layoutFoldAux (fields : List Layout) (align : Align) (offset : Nat) :
    Layout :=
  match fields with
  | [] => ⟨offset, align⟩
  | field :: rest =>
    layoutFoldAux rest (if field.align.get > align.get then field.align else align)
      (field_step field offset).cur_offset

/-- `abi::layout`: fold `field_step` over the schedule starting from offset
0 and alignment `Align::MIN`; the final offset is the size and the maximal
field alignment is the alignment. -/
def layout (fields : List Layout) : Layout := layoutFoldAux fields Align.MIN 0

/-- The stream of field offsets produced by the `FieldsLogic` iterator. -/
def fieldOffsets (fields : List Layout) (cur : Nat) : List Nat :=
  match fields with
  | [] => []
  | f :: rest =>
    (field_step f cur).field_offset :: fieldOffsets rest (field_step f cur).cur_offset

/-- Specification-side description of the cursor bump (claim C6 as
amended): an aligned cursor is kept; a misaligned one is advanced to the
next power of two at least `cur + 1`, or to the alignment itself if that
power of two is still smaller. -/
def bumpSpec (alignExp cur : Nat) : Nat :=
  if cur % 2 ^ alignExp = 0 then cur
  else max (2 ^ alignExp) (next_power_of_two (cur + 1))

/-- Specification-side field offsets under `bumpSpec`. -/
def fieldOffsetsSpec (fields : List Layout) (cur : Nat) : List Nat :=
  match fields with
  | [] => []
  | f :: rest =>
    bumpSpec f.align.exp cur ::
      fieldOffsetsSpec rest (bumpSpec f.align.exp cur + f.size)

/-- Specification-side final cursor (the struct size) under `bumpSpec`. -/
def structSizeSpec (fields : List Layout) (cur : Nat) : Nat :=
  match fields with
  | [] => cur
  | f :: rest => structSizeSpec rest (bumpSpec f.align.exp cur + f.size)

/-! ## Memory accesses (src/vm/src/access.rs) -/

inductive MemAccessKind where
  | Read
  | Write
  | Execute
  deriving DecidableEq, Repr

/-- `Permissions::grants_access`. -/
def Permissions.grants_access (p : Permissions) (kind : MemAccessKind) : Bool :=
  match kind with
  | .Read => p.r
  | .Write => p.w
  | .Execute => p.x

/-- `MemAccess`: a memory access descriptor (`len = none` records a length
overflow). -/
structure MemAccess where
  tcap : TaggedCapability
  len : Option Nat
  align : Align
  kind : MemAccessKind
  deriving DecidableEq, Repr

namespace MemAccess

/-- `MemAccess::is_bounded`. -/
def is_bounded (a : MemAccess) : Bool :=
  match a.len with
  | some len => a.tcap.is_bounded_with_len len
  | none => false

/-- `MemAccess::perms_grant`. -/
def perms_grant (a : MemAccess) : Bool := a.tcap.perms.grants_access a.kind

/-- `MemAccess::is_aligned`. -/
def is_aligned (a : MemAccess) : Bool := a.tcap.addr.is_aligned_to a.align

end MemAccess

/-- `RegAccess`. -/
structure RegAccess where
  reg : Nat
  len : Nat
  deriving DecidableEq, Repr

/-! ## Exceptions (src/vm/src/exception.rs) -/

/-- `alloc::Strategy` (src/vm/src/alloc.rs): only `Bump = 1` exists. -/
inductive Strategy where
  | Bump
  deriving DecidableEq, Repr

/-- `alloc::InitFlags`: a `u8` bit field over INIT_ON_ALLOC, INIT_ON_FREE. -/
structure InitFlags where
  bits : Nat
  deriving DecidableEq, Repr

namespace InitFlags

def INIT_ON_ALLOC : InitFlags := ⟨0b00000001⟩

def INIT_ON_FREE : InitFlags := ⟨0b00000010⟩

/-- bitflags `contains`. -/
def contains (f o : InitFlags) : Bool := f.bits &&& o.bits == o.bits

/-- bitflags `from_bits_truncate`. -/
def from_bits_truncate (n : Nat) : InitFlags := ⟨n &&& 0b00000011⟩

end InitFlags

/-- `alloc::Stats`. -/
structure Stats where
  strategy : Strategy
  flags : InitFlags
  bytes_free : Nat
  deriving DecidableEq, Repr

inductive AllocErrKind where
  | NotEnoughMem
  | Oom
  deriving DecidableEq, Repr

/-- `alloc::AllocErr`. -/
structure AllocErr where
  stats : Stats
  requested : Layout
  kind : AllocErrKind
  deriving DecidableEq, Repr

inductive Exception where
  | InvalidOpKind (byte : Nat)
  | InvalidSyscall (byte : Nat)
  | InvalidAllocStrategy (byte : Nat)
  | InvalidAllocInitFlags (flags : Nat)
  | InvalidAlign (align : Nat)
  | InvalidMemAccess (access : MemAccess)
  | InvalidRegAccess (access : RegAccess)
  | AllocFail (err : AllocErr)
  | ProcessExit
  | Unimplemented
  deriving DecidableEq, Repr

namespace TaggedCapability

/-- `TaggedCapability::access`. -/
def access (t : TaggedCapability) (kind : MemAccessKind) (align : Align)
    (len : Option Nat) : MemAccess :=
  ⟨t, len, align, kind⟩

/-- `TaggedCapability::check_given_access`. -/
def check_given_access (t : TaggedCapability) (a : MemAccess) :
    Except Exception Unit :=
  if t.is_valid && t.otype.is_unsealed && a.is_bounded && a.perms_grant &&
      a.is_aligned then
    Except.ok ()
  else
    Except.error (.InvalidMemAccess a)

/-- `TaggedCapability::check_access`. -/
def check_access (t : TaggedCapability) (kind : MemAccessKind) (align : Align)
    (len : Option Nat) : Except Exception Unit :=
  t.check_given_access (t.access kind align len)

end TaggedCapability

/-! ## Byte and tag slices (the `Ty` trait, src/vm/src/abi/core_impls.rs,
src/vm/src/capability.rs, src/libvm/src/abi/structs.rs) -/

/-- Little-endian byte encoding of `v` into `len` bytes (Rust
`to_le_bytes`, truncating to the type's width). -/
def toLEBytes (v : Nat) : Nat → List Nat
  | 0 => []
  | len + 1 => v % 256 :: toLEBytes (v / 256) len

/-- Little-endian byte decoding (Rust `from_le_bytes`). -/
def fromLEBytes : List Nat → Nat
  | [] => 0
  | b :: rest => b + 256 * fromLEBytes rest

/-- Write `repl` into `l` starting at index `start` (the effect of
mutating a Rust subslice in place). -/
def listSplice {α : Type} (l : List α) (start : Nat) (repl : List α) :
    List α :=
  l.take start ++ repl ++ l.drop (start + repl.length)

/-- `abi::gran_span`: index of the last granule in the span of `size`
bytes starting at `addr` (0 for an empty span).  The source subtracts
granule indices with `u64` arithmetic; `Nat` subtraction saturates where
the source would panic on a wrapped span. -/
def gran_span (addr : Address) (size : Nat) : Nat :=
  if size = 0 then 0 else ((addr.add size).sub 1).gran - addr.gran

/-- A monomorphised `Ty::read`/`Ty::write` pair: the embedding of one
trait implementation. -/
structure TyImpl (α : Type) where
  layout : Layout
  read : List Nat → Address → List Bool → Except Exception α
  write : α → List Nat → Address → List Bool →
    Except Exception (List Nat × List Bool)

/-- The body `int_impl!` generates for every integer width (u8...u128 and
the signed variants, whose byte image is the two's-complement pattern the
caller supplies): read is a little-endian decode, write clears every tag
bit of the slice (`valid.fill(false)`) and stores the little-endian
bytes. -/
def intTy (len : Nat) : TyImpl Nat where
  layout := ⟨len, ⟨0⟩⟩
  read := fun src _addr _valid => .ok (fromLEBytes src)
  write := fun v _dst _addr valid =>
    .ok (toLEBytes v len, List.replicate valid.length false)

/-- `impl Ty for bool` (one byte, delegating to the `u8` body). -/
def boolTy : TyImpl Bool where
  layout := ⟨1, ⟨0⟩⟩
  read := fun src addr valid =>
    match (intTy 1).read src addr valid with
    | .error e => .error e
    | .ok repr => .ok (repr != 0)
  write := fun b dst addr valid =>
    (intTy 1).write (if b then 1 else 0) dst addr valid

/-- `impl Ty for Align` (src/vm/src/abi/core_impls.rs): stored as a
`UAddr`; reading validates the power-of-two invariant. -/
def alignTy : TyImpl Align where
  layout := ⟨8, ⟨0⟩⟩
  read := fun src addr valid =>
    match (intTy 8).read src addr valid with
    | .error e => .error e
    | .ok v =>
      match Align.new v with
      | some a => .ok a
      | none => .error (.InvalidAlign v)
  write := fun a dst addr valid => (intTy 8).write a.get dst addr valid

/-- One `StructMut::write_next` step (src/libvm/src/abi/structs.rs):
compute the field offset with `field_step`, write through the sub-slices
`dst[offset..][..size]` and
`valid[gran_span(addr, offset)..][..=gran_span(addr + offset, size)]`,
then splice the updated sub-slices back. -/
def structWriteField {α : Type} (ty : TyImpl α) (v : α) (dst : List Nat)
    (addr : Address) (valid : List Bool) (cur : Nat) :
    Except Exception (List Nat × List Bool × Nat) :=
  let step := field_step ty.layout cur
  let offset := step.field_offset
  let size := ty.layout.size
  let faddr := addr.add offset
  let lo := gran_span addr offset
  let hi := gran_span faddr size
  match ty.write v ((dst.drop offset).take size) faddr
      ((valid.drop lo).take (hi + 1)) with
  | .error e => .error e
  | .ok (dstSub, validSub) =>
    .ok (listSplice dst offset dstSub, listSplice valid lo validSub,
      step.cur_offset)

/-- One `StructRef::read_next` step. -/
def structReadField {α : Type} (ty : TyImpl α) (src : List Nat)
    (addr : Address) (valid : List Bool) (cur : Nat) :
    Except Exception (α × Nat) :=
  let step := field_step ty.layout cur
  let offset := step.field_offset
  let size := ty.layout.size
  let faddr := addr.add offset
  let lo := gran_span addr offset
  let hi := gran_span faddr size
  match ty.read ((src.drop offset).take size) faddr
      ((valid.drop lo).take (hi + 1)) with
  | .error e => .error e
  | .ok v => .ok (v, step.cur_offset)

/-- `impl Ty for Layout` (src/vm/src/abi/core_impls.rs): a struct of
`FIELDS = [UAddr::LAYOUT, Align::LAYOUT]` written through `StructMut`. -/
def layoutTy : TyImpl Layout where
  layout := ⟨16, ⟨0⟩⟩
  read := fun src addr valid =>
    match structReadField (intTy 8) src addr valid 0 with
    | .error e => .error e
    | .ok (size, cur) =>
      match structReadField alignTy src addr valid cur with
      | .error e => .error e
      | .ok (align, _) => .ok ⟨size, align⟩
  write := fun l dst addr valid =>
    match structWriteField (intTy 8) l.size dst addr valid 0 with
    | .error e => .error e
    | .ok (dst, valid, cur) =>
      match structWriteField alignTy l.align dst addr valid cur with
      | .error e => .error e
      | .ok (dst, valid, _) => .ok (dst, valid)

/-- `impl Ty for Capability` (src/vm/src/capability.rs): a `UGran` image;
the write clears the tag bits like every integer write. -/
def capabilityTy : TyImpl Capability where
  layout := ⟨16, ⟨0⟩⟩
  read := fun src addr valid =>
    match (intTy 16).read src addr valid with
    | .error e => .error e
    | .ok g => .ok (Capability.from_ugran g)
  write := fun c dst addr valid => (intTy 16).write c.to_ugran dst addr valid

/-- `impl Ty for TaggedCapability` (src/vm/src/capability.rs): the
capability bytes are written (clearing the tag slice), then the single
tag bit (`valid.len() == 1` by contract) is set to the validity. -/
def taggedCapabilityTy : TyImpl TaggedCapability where
  layout := ⟨16, ⟨4⟩⟩
  read := fun src addr valid =>
    match capabilityTy.read src addr valid with
    | .error e => .error e
    | .ok capa => .ok (TaggedCapability.new capa (valid.getD 0 false))
  write := fun t dst addr valid =>
    match capabilityTy.write t.capa dst addr valid with
    | .error e => .error e
    | .ok (dst, valid) => .ok (dst, valid.set 0 t.is_valid)

/-- The tag-bit slice a `Ty::write` call produced (empty on error). -/
def tagsOfWrite (r : Except Exception (List Nat × List Bool)) : List Bool :=
  match r with
  | .ok p => p.2
  | .error _ => []

/-! ## Register file (src/vm/src/registers.rs) and tag controller
(src/libvm/src/mem.rs) -/

namespace Registers

/-- `Registers::COUNT`. -/
def COUNT : Nat := 32

/-- `Registers::MASK`. -/
def MASK : Nat := 0b11111

/-- `Registers::is_reg_valid`. -/
def is_reg_valid (reg : Nat) : Bool := reg &&& MASK == reg

/-- `Registers::is_len_valid` (`Register::LAYOUT.size = UGRAN_SIZE`). -/
def is_len_valid (len : Nat) : Bool := len ≤ 16

/-- `Registers::reg_to_idx`. -/
def reg_to_idx (reg : Nat) : Nat := reg &&& MASK

end Registers

/-- `RegAccess::check_reg`. -/
def RegAccess.check_reg (a : RegAccess) : Except Exception Unit :=
  if Registers.is_reg_valid a.reg then .ok () else .error (.InvalidRegAccess a)

/-- `RegAccess::check_len`. -/
def RegAccess.check_len (a : RegAccess) : Except Exception Unit :=
  if Registers.is_len_valid a.len then .ok () else .error (.InvalidRegAccess a)

namespace TagController

/-- Registers occupy tag indices `0..32`; granule `g` is at `32 + g`. -/
def gran_to_idx (g : Nat) : Nat := g + Registers.COUNT

/-- `TagController::idx_to_gran` (`checked_sub`). -/
def idx_to_gran (idx : Nat) : Option Nat :=
  if idx < Registers.COUNT then none else some (idx - Registers.COUNT)

/-- `TagController::reg_to_idx`. -/
def reg_to_idx (reg : Nat) : Option Nat :=
  if Registers.is_reg_valid reg then some reg else none

/-- `TagController::read_reg`. -/
def read_reg (tags : List Bool) (reg : Nat) : Option Bool :=
  match reg_to_idx reg with
  | none => none
  | some i => tags.get? i

/-- `TagController::write_reg`. -/
def write_reg (tags : List Bool) (reg : Nat) (valid : Bool) :
    Option (List Bool) :=
  match reg_to_idx reg with
  | none => none
  | some i => if i < tags.length then some (tags.set i valid) else none

/-- `TagController::reg`: the one-bit slice `mem[reg..=reg]`. -/
def reg (tags : List Bool) (r : Nat) : Option (List Bool) :=
  match reg_to_idx r with
  | none => none
  | some i => if i < tags.length then some [tags.getD i false] else none

/-- `TagController::grans`: the bit slice
`mem.get(gran_to_idx(start.gran)..)?.get(..=gran_span(start, size))`. -/
def grans (tags : List Bool) (start : Address) (size : Nat) :
    Option (List Bool) :=
  let idx := gran_to_idx start.gran
  if idx ≤ tags.length then
    let rest := tags.drop idx
    let hi := gran_span start size
    if hi < rest.length then some (rest.take (hi + 1)) else none
  else none

end TagController

/-! ## Memory (src/libvm/src/mem.rs) -/

/-- The machine state: byte array, register file, tag controller and the
root capability, as owned by `Memory`. -/
structure Memory where
  mem : List Nat
  regs : List Capability
  tags : List Bool
  root : TaggedCapability
  deriving DecidableEq, Repr

namespace Registers

/-- `Registers::read_data`: register 0 is hardwired to read as 0. -/
def read_data (regs : List Capability) (reg : Nat) : Except Exception Nat :=
  let access : RegAccess := ⟨reg, 16⟩
  match access.check_reg with
  | .error e => .error e
  | .ok () =>
    if reg = 0 then .ok 0
    else .ok ((regs.getD (reg_to_idx reg) Capability.INVALID).to_ugran)

/-- `Registers::read`: register 0 also reads as validity false. -/
def read (regs : List Capability) (tags : List Bool) (reg : Nat) :
    Except Exception TaggedCapability :=
  match read_data regs reg with
  | .error e => .error e
  | .ok gran =>
    let valid := if reg = 0 then false
      else (TagController.read_reg tags reg).getD false
    .ok (TaggedCapability.new (Capability.from_ugran gran) valid)

/-- `Registers::read_ty`: decode a typed value from the register's
little-endian bytes and its single tag bit. -/
def read_ty {α : Type} (ty : TyImpl α) (regs : List Capability)
    (tags : List Bool) (reg : Nat) : Except Exception α :=
  match read_data regs reg with
  | .error e => .error e
  | .ok data =>
    let access : RegAccess := ⟨reg, ty.layout.size⟩
    match access.check_len with
    | .error e => .error e
    | .ok () =>
      ty.read ((toLEBytes data 16).take ty.layout.size) ⟨0⟩
        ((TagController.reg tags reg).getD [])

/-- `Registers::write`: store the capability word and move its validity
into the tag controller. -/
def write (regs : List Capability) (tags : List Bool) (reg : Nat)
    (cap : TaggedCapability) : Except Exception (List Capability × List Bool) :=
  let access : RegAccess := ⟨reg, 16⟩
  match access.check_reg with
  | .error e => .error e
  | .ok () =>
    .ok (regs.set (reg_to_idx reg) cap.capa,
      (TagController.write_reg tags reg cap.is_valid).getD tags)

/-- `Registers::write_data`: forces the tag bit to false. -/
def write_data (regs : List Capability) (tags : List Bool) (reg : Nat)
    (val : Nat) : Except Exception (List Capability × List Bool) :=
  write regs tags reg (TaggedCapability.from_ugran val)

/-- `Registers::write_ty`: run the typed write over a zeroed 16-byte
buffer and the register's single tag bit, then store the resulting
word. -/
def write_ty {α : Type} (ty : TyImpl α) (regs : List Capability)
    (tags : List Bool) (reg : Nat) (val : α) :
    Except Exception (List Capability × List Bool) :=
  let access : RegAccess := ⟨reg, ty.layout.size⟩
  match access.check_reg with
  | .error e => .error e
  | .ok () =>
    match access.check_len with
    | .error e => .error e
    | .ok () =>
      match ty.write val ((List.replicate 16 0).take ty.layout.size) ⟨0⟩
          ((TagController.reg tags reg).getD []) with
      | .error e => .error e
      | .ok (bytes, tagbits) =>
        .ok (regs.set (reg_to_idx reg)
            (Capability.from_ugran (fromLEBytes
              (bytes ++ List.replicate (16 - ty.layout.size) 0))),
          listSplice tags reg tagbits)

end Registers

namespace Memory

/-- `Memory::slice_raw` / `slice_mut_raw`:
`mem.get(start..)?.get(..layout.size)`. -/
def slice_raw (mem : List Nat) (src : TaggedCapability) (layout : Layout) :
    Option (List Nat) :=
  let start := src.addr.get
  if start ≤ mem.length then
    let rest := mem.drop start
    if layout.size ≤ rest.length then some (rest.take layout.size) else none
  else none

/-- `Memory::read::<T>`: check the access, narrow the bounds to the type
footprint, then dispatch to the typed read over checked sub-slices whose
`None` becomes `InvalidMemAccess`. -/
def readT {α : Type} (ty : TyImpl α) (m : Memory) (src : TaggedCapability) :
    Except Exception α :=
  let access := src.access .Read ty.layout.align (some ty.layout.size)
  match src.check_given_access access with
  | .error e => .error e
  | .ok () =>
    let src := src.set_bounds src.addr (src.addr.add ty.layout.size)
    match slice_raw m.mem src ty.layout with
    | none => .error (.InvalidMemAccess access)
    | some bytes =>
      match TagController.grans m.tags src.addr ty.layout.size with
      | none => .error (.InvalidMemAccess access)
      | some tagsSub => ty.read bytes src.addr tagsSub

/-- `Memory::write::<T>`: dual of `readT`; the updated sub-slices are
spliced back in place. -/
def writeT {α : Type} (ty : TyImpl α) (m : Memory) (dst : TaggedCapability)
    (val : α) : Except Exception Memory :=
  let access := dst.access .Write ty.layout.align (some ty.layout.size)
  match dst.check_given_access access with
  | .error e => .error e
  | .ok () =>
    let dst := dst.set_bounds dst.addr (dst.addr.add ty.layout.size)
    match slice_raw m.mem dst ty.layout with
    | none => .error (.InvalidMemAccess access)
    | some bytes =>
      match TagController.grans m.tags dst.addr ty.layout.size with
      | none => .error (.InvalidMemAccess access)
      | some tagsSub =>
        match ty.write val bytes dst.addr tagsSub with
        | .error e => .error e
        | .ok (bytes, tags) =>
          .ok { m with
            mem := listSplice m.mem dst.addr.get bytes,
            tags := listSplice m.tags
              (TagController.gran_to_idx dst.addr.gran) tags }

/-- `Memory::memset` (the source indexes `mem[start..][..count]` directly,
assuming the capability bounds lie inside the byte array). -/
def memset (m : Memory) (dst : TaggedCapability) (count : Nat) (byte : Nat) :
    Except Exception Memory :=
  match dst.check_access .Write ⟨0⟩ (some count) with
  | .error e => .error e
  | .ok () =>
    .ok { m with
      mem := listSplice m.mem dst.addr.get (List.replicate count byte) }

end Memory

/-- Modelled from the spec: `Registers::read_untagged` is called by
`revoke::by_bounds` but its definition is not under src/; spec section 4.7
says the register's bytes are read directly, bypassing the zero-register
special case (and failing for an out-of-range register index). -/
def Registers.read_untagged (regs : List Capability) (reg : Nat) :
    Except Exception Nat :=
  if Registers.is_reg_valid reg then
    .ok ((regs.getD (Registers.reg_to_idx reg) Capability.INVALID).to_ugran)
  else
    .error (.InvalidRegAccess ⟨reg, 16⟩)

/-! ## Revocation (src/vm/src/revoke.rs) -/

/-- The body of `revoke::by_bounds` after reconstructing the capability:
clear the tag bit when either endpoint of `[cap.start, cap.endb]` lies in
`[start, endb]`. -/
def revoke.clearIfMatch (m : Memory) (idx : Nat) (cap : Capability)
    (start endb : Address) : Memory :=
  if (cap.start.get ≥ start.get ∧ cap.start.get ≤ endb.get) ∨
      (cap.endb.get ≥ start.get ∧ cap.endb.get ≤ endb.get) then
    { m with tags := m.tags.set idx false }
  else m

/-- One iteration of `revoke::by_bounds`: skip clear bits; reconstruct the
capability from the register's raw word when the index fits a `u8` and
names a register, otherwise read the granule through the root capability
at `Granule::addr` of `idx_to_gran idx` (whose `expect` is modelled with a
default that the enumeration never hits). -/
def revoke.step (root : TaggedCapability) (start endb : Address)
    (m : Memory) (idx : Nat) : Except Exception Memory :=
  if m.tags.getD idx false then
    match (if idx < 256 then
        match Registers.read_untagged m.regs idx with
        | .ok g => some (Capability.from_ugran g)
        | .error _ => none
      else none) with
    | some cap => .ok (revoke.clearIfMatch m idx cap start endb)
    | none =>
      match Memory.readT capabilityTy m
          (root.set_addr (Granule.addr
            ((TagController.idx_to_gran idx).getD 0))) with
      | .error e => .error e
      | .ok cap => .ok (revoke.clearIfMatch m idx cap start endb)
  else
    .ok m

/-- `revoke::by_bounds`: scan every tag-controller index. -/
def revoke.by_bounds (m : Memory) (start endb : Address) :
    Except Exception Memory :=
  let root := m.root
  (List.range m.tags.length).foldlM (revoke.step root start endb) m

/-- One register-file write operation, for claim C8's write sequences. -/
inductive RegWriteOp where
  | write (reg : Nat) (cap : TaggedCapability)
  | write_data (reg : Nat) (val : Nat)
  | write_ty_tcap (reg : Nat) (val : TaggedCapability)
  | write_ty_int (len reg val : Nat)
  | write_ty_bool (reg : Nat) (val : Bool)

/-- Apply one write to the register file; a rejected write leaves the
state unchanged. -/
def applyRegWrite (st : List Capability × List Bool) (op : RegWriteOp) :
    List Capability × List Bool :=
  match op with
  | .write reg cap =>
    match Registers.write st.1 st.2 reg cap with
    | .ok st' => st'
    | .error _ => st
  | .write_data reg val =>
    match Registers.write_data st.1 st.2 reg val with
    | .ok st' => st'
    | .error _ => st
  | .write_ty_tcap reg val =>
    match Registers.write_ty taggedCapabilityTy st.1 st.2 reg val with
    | .ok st' => st'
    | .error _ => st
  | .write_ty_int len reg val =>
    match Registers.write_ty (intTy len) st.1 st.2 reg val with
    | .ok st' => st'
    | .error _ => st
  | .write_ty_bool reg val =>
    match Registers.write_ty boolTy st.1 st.2 reg val with
    | .ok st' => st'
    | .error _ => st

/-! ## Bump allocator (src/vm/src/alloc/bump.rs) -/

/-- `alloc::Header`: `(strategy, flags)` at the start of an allocator
region. -/
structure Header where
  strat : Strategy
  flags : InitFlags
  deriving DecidableEq, Repr

/-- `BumpAlloc`: the strategy state is one tagged capability whose `addr`
is the bump pointer and whose bounds delimit the free region. -/
structure BumpAlloc where
  inner : TaggedCapability
  deriving DecidableEq, Repr

namespace BumpAlloc

/-- `BumpAlloc::new`: reset the bump pointer to the region start. -/
def new (region : TaggedCapability) : BumpAlloc :=
  ⟨region.set_addr region.start⟩

/-- `BumpAlloc::bytes_free` (`endb - addr`; the source `expect`s that the
pointer never exceeds `endb`). -/
def bytes_free (b : BumpAlloc) : Nat := b.inner.endb.get - b.inner.addr.get

/-- `BumpAlloc::stat`. -/
def stat (b : BumpAlloc) (header : Header) : Stats :=
  ⟨header.strat, header.flags, b.bytes_free⟩

/-- `BumpAlloc::alloc`: error cases leave the state untouched (the source
returns early without mutating `self`), so only the success case carries a
new state. -/
def alloc (b : BumpAlloc) (header : Header) (layout : Layout) :
    Except AllocErr (TaggedCapability × BumpAlloc) :=
  if b.inner.addr.get == b.inner.endb.get then
    Except.error ⟨b.stat header, layout, .Oom⟩
  else
    let ation := b.inner.set_addr (b.inner.addr.align_to layout.align)
    let ation := ation.set_bounds ation.addr (ation.addr.add layout.size)
    if ation.is_valid then
      Except.ok (ation, ⟨b.inner.set_addr ation.endb⟩)
    else
      Except.error ⟨b.stat header, layout, .NotEnoughMem⟩

/-- `BumpAlloc::free_all`: reset the bump pointer to the region start. -/
def free_all (b : BumpAlloc) : BumpAlloc := ⟨b.inner.set_addr b.inner.start⟩

end BumpAlloc

/-- The least multiple of `al` that is at least `a` (the claim's rounding;
`al` is a power of two in every use). -/
def leastAlignedGE (al a : Nat) : Nat := ((a + al - 1) / al) * al

/-! ## Further `Ty` implementations used by the execution engine -/

/-- `impl Ty for Address` (src/vm/src/capability.rs): a `UAddr`. -/
def addressTy : TyImpl Address where
  layout := ⟨8, ⟨0⟩⟩
  read := fun src _ _ => .ok ⟨fromLEBytes src⟩
  write := fun a dst addr valid => (intTy 8).write a.get dst addr valid

/-- `impl Ty for Permissions` (src/vm/src/capability.rs): one byte,
truncating unknown bits on read. -/
def permissionsTy : TyImpl Permissions where
  layout := ⟨1, ⟨0⟩⟩
  read := fun src addr valid =>
    match (intTy 1).read src addr valid with
    | .error e => .error e
    | .ok b => .ok (Permissions.from_bits_truncate b)
  write := fun p dst addr valid => (intTy 1).write p.bits dst addr valid

/-- `impl Ty for OType` (src/vm/src/capability.rs): one byte. -/
def otypeTy : TyImpl OType where
  layout := ⟨1, ⟨0⟩⟩
  read := fun src addr valid =>
    match (intTy 1).read src addr valid with
    | .error e => .error e
    | .ok b => .ok (OType.new b)
  write := fun o dst addr valid => (intTy 1).write o.repr dst addr valid

/-- `impl Ty for SGran` (`int_impl!(SGran)`): the two's-complement
reinterpretation of the grain word. -/
def sgranTy : TyImpl Int where
  layout := ⟨16, ⟨0⟩⟩
  read := fun src _ _ => .ok (gran_sign (fromLEBytes src))
  write := fun v dst addr valid => (intTy 16).write (gran_unsign v) dst addr valid

/-- `impl Ty for Strategy` (src/vm/src/alloc.rs). -/
def strategyTy : TyImpl Strategy where
  layout := ⟨1, ⟨0⟩⟩
  read := fun src addr valid =>
    match (intTy 1).read src addr valid with
    | .error e => .error e
    | .ok 1 => .ok .Bump
    | .ok b => .error (.InvalidAllocStrategy b)
  write := fun _ dst addr valid => (intTy 1).write 1 dst addr valid

/-- `impl Ty for InitFlags` (src/vm/src/alloc.rs): truncating read. -/
def initFlagsTy : TyImpl InitFlags where
  layout := ⟨1, ⟨0⟩⟩
  read := fun src addr valid =>
    match (intTy 1).read src addr valid with
    | .error e => .error e
    | .ok b => .ok (InitFlags.from_bits_truncate b)
  write := fun f dst addr valid => (intTy 1).write f.bits dst addr valid

/-- `impl Ty for Header` (src/vm/src/alloc.rs): struct over
`[Strategy::LAYOUT, InitFlags::LAYOUT]`. -/
def headerTy : TyImpl Header where
  layout := ⟨2, ⟨0⟩⟩
  read := fun src addr valid =>
    match structReadField strategyTy src addr valid 0 with
    | .error e => .error e
    | .ok (strat, cur) =>
      match structReadField initFlagsTy src addr valid cur with
      | .error e => .error e
      | .ok (flags, _) => .ok ⟨strat, flags⟩
  write := fun h dst addr valid =>
    match structWriteField strategyTy h.strat dst addr valid 0 with
    | .error e => .error e
    | .ok (dst, valid, cur) =>
      match structWriteField initFlagsTy h.flags dst addr valid cur with
      | .error e => .error e
      | .ok (dst, valid, _) => .ok (dst, valid)

/-- `impl Ty for BumpAlloc` (src/vm/src/alloc/bump.rs): struct over
`[TaggedCapability::LAYOUT]`. -/
def bumpAllocTy : TyImpl BumpAlloc where
  layout := ⟨16, ⟨4⟩⟩
  read := fun src addr valid =>
    match structReadField taggedCapabilityTy src addr valid 0 with
    | .error e => .error e
    | .ok (inner, _) => .ok ⟨inner⟩
  write := fun b dst addr valid =>
    match structWriteField taggedCapabilityTy b.inner dst addr valid 0 with
    | .error e => .error e
    | .ok (dst, valid, _) => .ok (dst, valid)

/-- `impl Ty for Stats` (src/vm/src/alloc.rs): struct over
`[Strategy::LAYOUT, InitFlags::LAYOUT, UAddr::LAYOUT]`. -/
def statsTy : TyImpl Stats where
  layout := ⟨10, ⟨0⟩⟩
  read := fun src addr valid =>
    match structReadField strategyTy src addr valid 0 with
    | .error e => .error e
    | .ok (strat, cur) =>
      match structReadField initFlagsTy src addr valid cur with
      | .error e => .error e
      | .ok (flags, cur) =>
        match structReadField (intTy 8) src addr valid cur with
        | .error e => .error e
        | .ok (free, _) => .ok ⟨strat, flags, free⟩
  write := fun st dst addr valid =>
    match structWriteField strategyTy st.strategy dst addr valid 0 with
    | .error e => .error e
    | .ok (dst, valid, cur) =>
      match structWriteField initFlagsTy st.flags dst addr valid cur with
      | .error e => .error e
      | .ok (dst, valid, cur) =>
        match structWriteField (intTy 8) st.bytes_free dst addr valid cur with
        | .error e => .error e
        | .ok (dst, valid, _) => .ok (dst, valid)

/-! ## System calls (src/vm/src/syscall.rs) -/

inductive SyscallKind where
  | Exit
  | AllocInit
  | AllocDeInit
  | AllocAlloc
  | AllocFree
  | AllocFreeAll
  | AllocStat
  deriving DecidableEq, Repr

/-- `SyscallKind::from_byte`. -/
def SyscallKind.from_byte (byte : Nat) : Except Exception SyscallKind :=
  match byte with
  | 0 => .ok .Exit
  | 1 => .ok .AllocInit
  | 2 => .ok .AllocDeInit
  | 3 => .ok .AllocAlloc
  | 4 => .ok .AllocFree
  | 5 => .ok .AllocFreeAll
  | 6 => .ok .AllocStat
  | _ => .error (.InvalidSyscall byte)

/-- Modelled from the spec: the `Ty` impl for `SyscallKind` read by
`regs.read_ty::<SyscallKind>` is not under src/; spec section 6 gives the
syscall numbers, read as one byte. -/
def syscallKindTy : TyImpl SyscallKind where
  layout := ⟨1, ⟨0⟩⟩
  read := fun src addr valid =>
    match (intTy 1).read src addr valid with
    | .error e => .error e
    | .ok b => SyscallKind.from_byte b
  write := fun k dst addr valid =>
    (intTy 1).write (match k with
      | .Exit => 0 | .AllocInit => 1 | .AllocDeInit => 2 | .AllocAlloc => 3
      | .AllocFree => 4 | .AllocFreeAll => 5 | .AllocStat => 6) dst addr valid

/-! ## Instructions (src/libvm/src/op.rs) -/

/-- `OpKind`: the 50 opcodes. -/
inductive OpKind where
  | CGetValid | CGetAddr | CSetAddr | CGetBound | CSetBound
  | CGetPerm | CSetPerm | CGetType | CSeal | CUnseal
  | Cpy | LoadI | LoadU8 | LoadU16 | LoadU32 | LoadU64 | LoadC
  | Store8 | Store16 | Store32 | Store64 | StoreC
  | AddI | Add | Sub
  | SltsI | SltuI | Slts | Sltu
  | XorI | Xor | OrI | Or | AndI | And
  | SllI | Sll | SrlI | Srl | SraI | Sra
  | Jal | Jalr | Beq | Bne | Blts | Bges | Bltu | Bgeu
  | Syscall
  deriving DecidableEq, Repr

/-- `OpKind::from_byte`. -/
def OpKind.from_byte (byte : Nat) : Except Exception OpKind :=
  match byte with
  | 0 => .ok .CGetValid
  | 1 => .ok .CGetAddr
  | 2 => .ok .CSetAddr
  | 3 => .ok .CGetBound
  | 4 => .ok .CSetBound
  | 5 => .ok .CGetPerm
  | 6 => .ok .CSetPerm
  | 7 => .ok .CGetType
  | 8 => .ok .CSeal
  | 9 => .ok .CUnseal
  | 10 => .ok .Cpy
  | 11 => .ok .LoadI
  | 12 => .ok .LoadU8
  | 13 => .ok .LoadU16
  | 14 => .ok .LoadU32
  | 15 => .ok .LoadU64
  | 16 => .ok .LoadC
  | 17 => .ok .Store8
  | 18 => .ok .Store16
  | 19 => .ok .Store32
  | 20 => .ok .Store64
  | 21 => .ok .StoreC
  | 22 => .ok .AddI
  | 23 => .ok .Add
  | 24 => .ok .Sub
  | 25 => .ok .SltsI
  | 26 => .ok .SltuI
  | 27 => .ok .Slts
  | 28 => .ok .Sltu
  | 29 => .ok .XorI
  | 30 => .ok .Xor
  | 31 => .ok .OrI
  | 32 => .ok .Or
  | 33 => .ok .AndI
  | 34 => .ok .And
  | 35 => .ok .SllI
  | 36 => .ok .Sll
  | 37 => .ok .SrlI
  | 38 => .ok .Srl
  | 39 => .ok .SraI
  | 40 => .ok .Sra
  | 41 => .ok .Jal
  | 42 => .ok .Jalr
  | 43 => .ok .Beq
  | 44 => .ok .Bne
  | 45 => .ok .Blts
  | 46 => .ok .Bges
  | 47 => .ok .Bltu
  | 48 => .ok .Bgeu
  | 49 => .ok .Syscall
  | _ => .error (.InvalidOpKind byte)

/-- `OpKind::to_byte` (the `repr(u8)` discriminant). -/
def OpKind.to_byte (k : OpKind) : Nat :=
  match k with
  | .CGetValid => 0 | .CGetAddr => 1 | .CSetAddr => 2 | .CGetBound => 3
  | .CSetBound => 4 | .CGetPerm => 5 | .CSetPerm => 6 | .CGetType => 7
  | .CSeal => 8 | .CUnseal => 9 | .Cpy => 10 | .LoadI => 11
  | .LoadU8 => 12 | .LoadU16 => 13 | .LoadU32 => 14 | .LoadU64 => 15
  | .LoadC => 16 | .Store8 => 17 | .Store16 => 18 | .Store32 => 19
  | .Store64 => 20 | .StoreC => 21 | .AddI => 22 | .Add => 23
  | .Sub => 24 | .SltsI => 25 | .SltuI => 26 | .Slts => 27
  | .Sltu => 28 | .XorI => 29 | .Xor => 30 | .OrI => 31
  | .Or => 32 | .AndI => 33 | .And => 34 | .SllI => 35
  | .Sll => 36 | .SrlI => 37 | .Srl => 38 | .SraI => 39
  | .Sra => 40 | .Jal => 41 | .Jalr => 42 | .Beq => 43
  | .Bne => 44 | .Blts => 45 | .Bges => 46 | .Bltu => 47
  | .Bgeu => 48 | .Syscall => 49

/-- `impl Ty for OpKind` (src/libvm/src/op.rs): one byte. -/
def opKindTy : TyImpl OpKind where
  layout := ⟨1, ⟨0⟩⟩
  read := fun src addr valid =>
    match (intTy 1).read src addr valid with
    | .error e => .error e
    | .ok b => OpKind.from_byte b
  write := fun k dst addr valid => (intTy 1).write k.to_byte dst addr valid

/-- `Op`: an opcode and three grain-sized operand slots. -/
structure Op where
  kind : OpKind
  op1 : TaggedCapability
  op2 : TaggedCapability
  op3 : TaggedCapability
  deriving DecidableEq, Repr

/-- `impl Ty for Op`: struct over `[OpKind::LAYOUT] ++ three
`TaggedCapability::LAYOUT`s (offsets 0, 16, 32, 48; size 64). -/
def opTy : TyImpl Op where
  layout := ⟨64, ⟨4⟩⟩
  read := fun src addr valid =>
    match structReadField opKindTy src addr valid 0 with
    | .error e => .error e
    | .ok (kind, cur) =>
      match structReadField taggedCapabilityTy src addr valid cur with
      | .error e => .error e
      | .ok (op1, cur) =>
        match structReadField taggedCapabilityTy src addr valid cur with
        | .error e => .error e
        | .ok (op2, cur) =>
          match structReadField taggedCapabilityTy src addr valid cur with
          | .error e => .error e
          | .ok (op3, _) => .ok ⟨kind, op1, op2, op3⟩
  write := fun op dst addr valid =>
    match structWriteField opKindTy op.kind dst addr valid 0 with
    | .error e => .error e
    | .ok (dst, valid, cur) =>
      match structWriteField taggedCapabilityTy op.op1 dst addr valid cur with
      | .error e => .error e
      | .ok (dst, valid, cur) =>
        match structWriteField taggedCapabilityTy op.op2 dst addr valid cur with
        | .error e => .error e
        | .ok (dst, valid, cur) =>
          match structWriteField taggedCapabilityTy op.op3 dst addr valid cur with
          | .error e => .error e
          | .ok (dst, valid, _) => .ok (dst, valid)

/-! ## The execution engine (src/vm/src/process.rs, src/vm/src/alloc.rs,
src/libvm/src/abi/custom.rs) -/

namespace Memory

/-- `self.regs.read_data(...)` with the register file owned by `Memory`. -/
def rread_data (m : Memory) (r : Nat) : Except Exception Nat :=
  Registers.read_data m.regs r

/-- `self.regs.read(&self.tags, ...)`. -/
def rread (m : Memory) (r : Nat) : Except Exception TaggedCapability :=
  Registers.read m.regs m.tags r

/-- `self.regs.read_ty(&self.tags, ...)`. -/
def rread_ty {α : Type} (ty : TyImpl α) (m : Memory) (r : Nat) :
    Except Exception α :=
  Registers.read_ty ty m.regs m.tags r

/-- `self.regs.write(&mut self.tags, ...)`, re-owning the updated register
file and tag controller. -/
def rwrite (m : Memory) (r : Nat) (cap : TaggedCapability) :
    Except Exception Memory :=
  match Registers.write m.regs m.tags r cap with
  | .error e => .error e
  | .ok (regs, tags) => .ok { m with regs := regs, tags := tags }

/-- `self.regs.write_data(&mut self.tags, ...)` (which stores
`TaggedCapability::from_ugran` of the word, forcing the tag to false). -/
def rwrite_data (m : Memory) (r : Nat) (val : Nat) : Except Exception Memory :=
  m.rwrite r (TaggedCapability.from_ugran val)

/-- `self.regs.write_ty(&mut self.tags, ...)`. -/
def rwrite_ty {α : Type} (ty : TyImpl α) (m : Memory) (r : Nat) (val : α) :
    Except Exception Memory :=
  match Registers.write_ty ty m.regs m.tags r val with
  | .error e => .error e
  | .ok (regs, tags) => .ok { m with regs := regs, tags := tags }

end Memory

/-! ### `CustomFields` (src/libvm/src/abi/custom.rs), with the cursor
threaded explicitly -/

namespace CustomFields

/-- `CustomFields::peek_inner`: narrow the base capability to the next
field's footprint and return the advanced cursor. -/
def peek_inner {α : Type} (ty : TyImpl α) (base : TaggedCapability)
    (cur_offset : Nat) : TaggedCapability × Nat :=
  let step := field_step ty.layout cur_offset
  let cap := base.set_addr (base.addr.add step.field_offset)
  let cap := cap.set_bounds cap.addr (cap.addr.add ty.layout.size)
  (cap, step.cur_offset)

/-- `CustomFields::read_next`. -/
def read_next {α : Type} (ty : TyImpl α) (base : TaggedCapability)
    (cur_offset : Nat) (m : Memory) : Except Exception (α × Nat) :=
  let p := peek_inner ty base cur_offset
  match Memory.readT ty m p.1 with
  | .error e => .error e
  | .ok v => .ok (v, p.2)

/-- `CustomFields::write_next`. -/
def write_next {α : Type} (ty : TyImpl α) (v : α) (base : TaggedCapability)
    (cur_offset : Nat) (m : Memory) : Except Exception (Memory × Nat) :=
  let p := peek_inner ty base cur_offset
  match Memory.writeT ty m p.1 v with
  | .error e => .error e
  | .ok m => .ok (m, p.2)

end CustomFields

/-! ### The allocator layer (src/vm/src/alloc.rs) -/

namespace alloc

/-- `alloc::magic_seal`. -/
def magic_seal (cap : TaggedCapability) : TaggedCapability :=
  cap.sealWith (cap.set_perms (cap.perms.union Permissions.SEAL))

/-- `alloc::magic_unseal`. -/
def magic_unseal (cap : TaggedCapability) : TaggedCapability :=
  cap.unsealWith (cap.set_perms (cap.perms.union Permissions.UNSEAL))

/-- `alloc::init`: reset the region address, check write access, revoke
all capabilities into the region, write the header and the strategy
state, and hand back the magically sealed handle. -/
def init (strat : Strategy) (flags : InitFlags) (region : TaggedCapability)
    (m : Memory) : Except Exception (TaggedCapability × Memory) :=
  let region := region.set_addr region.start
  match region.check_access .Write OType.VALID_ALIGN (some region.span_len) with
  | .error e => .error e
  | .ok () =>
    match revoke.by_bounds m region.start region.endb with
    | .error e => .error e
    | .ok m =>
      match CustomFields.write_next headerTy ⟨strat, flags⟩ region 0 m with
      | .error e => .error e
      | .ok (m, cur) =>
        match strat with
        | .Bump =>
          let ator_cap := (CustomFields.peek_inner bumpAllocTy region cur).1
          let ator := BumpAlloc.new
            (region.set_bounds ator_cap.endb region.endb)
          match CustomFields.write_next bumpAllocTy ator region cur m with
          | .error e => .error e
          | .ok (m, _) => .ok (magic_seal region, m)

/-- `alloc::deinit`: free all allocations, optionally clobber the region,
revoke and return the unsealed region capability. -/
def deinit (ator : TaggedCapability) (m : Memory) :
    Except Exception (TaggedCapability × Memory) :=
  let ator := magic_unseal ator
  match CustomFields.read_next headerTy ator 0 m with
  | .error e => .error e
  | .ok (header, cur) =>
    match header.strat with
    | .Bump =>
      let bump_cap := (CustomFields.peek_inner bumpAllocTy ator cur).1
      match CustomFields.read_next bumpAllocTy ator cur m with
      | .error e => .error e
      | .ok (bump, _) =>
        let bump := bump.free_all
        match Memory.writeT bumpAllocTy m bump_cap bump with
        | .error e => .error e
        | .ok m =>
          match (if (header.flags.contains InitFlags.INIT_ON_FREE : Bool) then
              Memory.memset m ator ator.span_len UNINIT_BYTE
            else .ok m) with
          | .error e => .error e
          | .ok m =>
            match revoke.by_bounds m ator.start ator.endb with
            | .error e => .error e
            | .ok m => .ok (ator, m)

/-- `alloc::alloc`: delegate to the strategy state, store the updated
state back, optionally clobber the fresh allocation. -/
def alloc (ator : TaggedCapability) (layout : Layout) (m : Memory) :
    Except Exception (TaggedCapability × Memory) :=
  let ator := magic_unseal ator
  match CustomFields.read_next headerTy ator 0 m with
  | .error e => .error e
  | .ok (header, cur) =>
    match header.strat with
    | .Bump =>
      let bump_cap := (CustomFields.peek_inner bumpAllocTy ator cur).1
      match CustomFields.read_next bumpAllocTy ator cur m with
      | .error e => .error e
      | .ok (bump, _) =>
        match bump.alloc header layout with
        | .error err => .error (.AllocFail err)
        | .ok (ation, bump) =>
          match Memory.writeT bumpAllocTy m bump_cap bump with
          | .error e => .error e
          | .ok m =>
            match (if (header.flags.contains InitFlags.INIT_ON_ALLOC : Bool)
                then Memory.memset m ation ation.span_len UNINIT_BYTE
              else .ok m) with
            | .error e => .error e
            | .ok m => .ok (ation, m)

/-- `alloc::free` is `todo!()` in the source after the magic unseal: the
unimplemented body, which can never return successfully, is modelled as an
`Unimplemented` exception. -/
def free (ator _ation : TaggedCapability) (_m : Memory) :
    Except Exception Memory :=
  let _ator := magic_unseal ator
  .error .Unimplemented

/-- `alloc::free_all`. -/
def free_all (ator : TaggedCapability) (m : Memory) :
    Except Exception Memory :=
  let ator := magic_unseal ator
  match CustomFields.read_next headerTy ator 0 m with
  | .error e => .error e
  | .ok (header, cur) =>
    match header.strat with
    | .Bump =>
      let bump_cap := (CustomFields.peek_inner bumpAllocTy ator cur).1
      match CustomFields.read_next bumpAllocTy ator cur m with
      | .error e => .error e
      | .ok (bump, _) =>
        let bump := bump.free_all
        match revoke.by_bounds m bump.inner.start bump.inner.endb with
        | .error e => .error e
        | .ok m =>
          match (if (header.flags.contains InitFlags.INIT_ON_FREE : Bool) then
              Memory.memset m bump.inner bump.inner.span_len UNINIT_BYTE
            else .ok m) with
          | .error e => .error e
          | .ok m =>
            match Memory.writeT bumpAllocTy m bump_cap bump with
            | .error e => .error e
            | .ok m => .ok m

/-- `alloc::stat`. -/
def stat (ator : TaggedCapability) (m : Memory) : Except Exception Stats :=
  let ator := magic_unseal ator
  match CustomFields.read_next headerTy ator 0 m with
  | .error e => .error e
  | .ok (header, cur) =>
    match header.strat with
    | .Bump =>
      match CustomFields.read_next bumpAllocTy ator cur m with
      | .error e => .error e
      | .ok (bump, _) => .ok (bump.stat header)

end alloc

/-! ### Instruction dispatch (src/vm/src/process.rs) -/

/-- `fn reg(tcap)`: the operand word truncated to a `u8` register index. -/
def reg (tcap : TaggedCapability) : Nat := tcap.to_ugran % 256

/-- The dispatch `match op.kind` of `Memory::execute_op`, returning the
updated state and the `return_address` override.  Register numbers follow
the `Register` enum (`Pc = 1`, `A0 = 11`, `A2 = 13`, `A3 = 14`, `A4 = 15`,
`A5 = 16`).  Wrapping arithmetic reduces modulo the grain; shift amounts
reduce modulo the grain width as the host's release-mode shifts do.  The
`CGetType`, `CSeal` and `CUnseal` arms are absent from
src/vm/src/process.rs and are modelled from the spec (section 4.5) and the
opcode documentation in src/libvm/src/op.rs. -/
def Memory.execute_dispatch (m : Memory) (op : Op)
    (pc inc_pc : TaggedCapability) :
    Except Exception (Memory × Option TaggedCapability) :=
  match op.kind with
  | .CGetAddr => do
    let dst := reg op.op1
    let tcap ← m.rread (reg op.op2)
    let m ← m.rwrite_ty addressTy dst tcap.addr
    pure (m, none)
  | .CSetAddr => do
    let tcap_reg := reg op.op1
    let tcap ← m.rread tcap_reg
    let addr ← m.rread_ty addressTy (reg op.op2)
    let m ← m.rwrite tcap_reg (tcap.set_addr addr)
    pure (m, none)
  | .CGetBound => do
    let start_dst := reg op.op1
    let endb_dst := reg op.op2
    let tcap ← m.rread (reg op.op3)
    let m ← m.rwrite_ty addressTy start_dst tcap.start
    let m ← m.rwrite_ty addressTy endb_dst tcap.endb
    pure (m, none)
  | .CSetBound => do
    let tcap_reg := reg op.op1
    let tcap ← m.rread tcap_reg
    let start ← m.rread_ty addressTy (reg op.op2)
    let endb ← m.rread_ty addressTy (reg op.op3)
    let m ← m.rwrite tcap_reg (tcap.set_bounds start endb)
    pure (m, none)
  | .CGetPerm => do
    let dst := reg op.op1
    let tcap ← m.rread (reg op.op2)
    let m ← m.rwrite_ty permissionsTy dst tcap.perms
    pure (m, none)
  | .CSetPerm => do
    let tcap_reg := reg op.op1
    let tcap ← m.rread tcap_reg
    let perms ← m.rread_ty permissionsTy (reg op.op2)
    let m ← m.rwrite tcap_reg (tcap.set_perms perms)
    pure (m, none)
  | .CGetValid => do
    let dst := reg op.op1
    let tcap ← m.rread (reg op.op2)
    let m ← m.rwrite_ty boolTy dst tcap.is_valid
    pure (m, none)
  | .CGetType => do
    let dst := reg op.op1
    let tcap ← m.rread (reg op.op2)
    let m ← m.rwrite_ty otypeTy dst tcap.otype
    pure (m, none)
  | .CSeal => do
    let dst := reg op.op1
    let tcap ← m.rread (reg op.op2)
    let key ← m.rread (reg op.op3)
    let m ← m.rwrite dst (tcap.sealWith key)
    pure (m, none)
  | .CUnseal => do
    let dst := reg op.op1
    let tcap ← m.rread (reg op.op2)
    let key ← m.rread (reg op.op3)
    let m ← m.rwrite dst (tcap.unsealWith key)
    pure (m, none)
  | .Cpy => do
    let dst := reg op.op1
    let src := reg op.op2
    let val ← m.rread src
    let m ← m.rwrite dst val
    pure (m, none)
  | .LoadI => do
    let dst := reg op.op1
    let imm := op.op2
    let m ← m.rwrite dst imm
    pure (m, none)
  | .LoadU8 => do
    let dst := reg op.op1
    let src ← m.rread (reg op.op2)
    let val ← Memory.readT (intTy 1) m src
    let m ← m.rwrite_ty (intTy 1) dst val
    pure (m, none)
  | .LoadU16 => do
    let dst := reg op.op1
    let src ← m.rread (reg op.op2)
    let val ← Memory.readT (intTy 2) m src
    let m ← m.rwrite_ty (intTy 2) dst val
    pure (m, none)
  | .LoadU32 => do
    let dst := reg op.op1
    let src ← m.rread (reg op.op2)
    let val ← Memory.readT (intTy 4) m src
    let m ← m.rwrite_ty (intTy 4) dst val
    pure (m, none)
  | .LoadU64 => do
    let dst := reg op.op1
    let src ← m.rread (reg op.op2)
    let val ← Memory.readT (intTy 8) m src
    let m ← m.rwrite_ty (intTy 8) dst val
    pure (m, none)
  | .LoadC => do
    let dst := reg op.op1
    let src ← m.rread (reg op.op2)
    let val ← Memory.readT taggedCapabilityTy m src
    let m ← m.rwrite dst val
    pure (m, none)
  | .Store8 => do
    let dst ← m.rread (reg op.op1)
    let src := reg op.op2
    let val ← m.rread_data src
    let m ← Memory.writeT (intTy 1) m dst (val % 2 ^ 8)
    pure (m, none)
  | .Store16 => do
    let dst ← m.rread (reg op.op1)
    let src := reg op.op2
    let val ← m.rread_data src
    let m ← Memory.writeT (intTy 2) m dst (val % 2 ^ 16)
    pure (m, none)
  | .Store32 => do
    let dst ← m.rread (reg op.op1)
    let src := reg op.op2
    let val ← m.rread_data src
    let m ← Memory.writeT (intTy 4) m dst (val % 2 ^ 32)
    pure (m, none)
  | .Store64 => do
    let dst ← m.rread (reg op.op1)
    let src := reg op.op2
    let val ← m.rread_data src
    let m ← Memory.writeT (intTy 8) m dst (val % 2 ^ 64)
    pure (m, none)
  | .StoreC => do
    let dst ← m.rread (reg op.op1)
    let src := reg op.op2
    let cap ← m.rread src
    let m ← Memory.writeT taggedCapabilityTy m dst cap
    pure (m, none)
  | .AddI => do
    let dst := reg op.op1
    let addend ← m.rread_data (reg op.op2)
    let imm := op.op3.to_ugran
    let sum := (addend + imm) % granMod
    let m ← m.rwrite_data dst sum
    pure (m, none)
  | .Add => do
    let dst := reg op.op1
    let add1 ← m.rread_data (reg op.op2)
    let add2 ← m.rread_data (reg op.op3)
    let sum := (add1 + add2) % granMod
    let m ← m.rwrite_data dst sum
    pure (m, none)
  | .Sub => do
    let dst := reg op.op1
    let add1 ← m.rread_data (reg op.op2)
    let add2 ← m.rread_data (reg op.op3)
    let diff := (add1 + (granMod - add2 % granMod)) % granMod
    let m ← m.rwrite_data dst diff
    pure (m, none)
  | .SltsI => do
    let dst := reg op.op1
    let v2 ← m.rread_ty sgranTy (reg op.op2)
    let v3 := gran_sign op.op3.to_ugran
    let m ← m.rwrite_ty boolTy dst (decide (v2 < v3))
    pure (m, none)
  | .SltuI => do
    let dst := reg op.op1
    let v2 ← m.rread_data (reg op.op2)
    let v3 := op.op3.to_ugran
    let m ← m.rwrite_ty boolTy dst (decide (v2 < v3))
    pure (m, none)
  | .Slts => do
    let dst := reg op.op1
    let v2 ← m.rread_ty sgranTy (reg op.op2)
    let v3 ← m.rread_ty sgranTy (reg op.op3)
    let m ← m.rwrite_ty boolTy dst (decide (v2 < v3))
    pure (m, none)
  | .Sltu => do
    let dst := reg op.op1
    let v2 ← m.rread_data (reg op.op2)
    let v3 ← m.rread_data (reg op.op3)
    let m ← m.rwrite_ty boolTy dst (decide (v2 < v3))
    pure (m, none)
  | .XorI => do
    let dst := reg op.op1
    let v2 ← m.rread_data (reg op.op2)
    let v3 := op.op3.to_ugran
    let m ← m.rwrite_data dst (v2 ^^^ v3)
    pure (m, none)
  | .Xor => do
    let dst := reg op.op1
    let v2 ← m.rread_data (reg op.op2)
    let v3 ← m.rread_data (reg op.op3)
    let m ← m.rwrite_data dst (v2 ^^^ v3)
    pure (m, none)
  | .OrI => do
    let dst := reg op.op1
    let v2 ← m.rread_data (reg op.op2)
    let v3 := op.op3.to_ugran
    let m ← m.rwrite_data dst (v2 ||| v3)
    pure (m, none)
  | .Or => do
    let dst := reg op.op1
    let v2 ← m.rread_data (reg op.op2)
    let v3 ← m.rread_data (reg op.op3)
    let m ← m.rwrite_data dst (v2 ||| v3)
    pure (m, none)
  | .AndI => do
    let dst := reg op.op1
    let v2 ← m.rread_data (reg op.op2)
    let v3 := op.op3.to_ugran
    let m ← m.rwrite_data dst (v2 &&& v3)
    pure (m, none)
  | .And => do
    let dst := reg op.op1
    let v2 ← m.rread_data (reg op.op2)
    let v3 ← m.rread_data (reg op.op3)
    let m ← m.rwrite_data dst (v2 &&& v3)
    pure (m, none)
  | .SllI => do
    let dst := reg op.op1
    let val ← m.rread_data (reg op.op2)
    let amount := op.op3.to_ugran
    let m ← m.rwrite_data dst ((val <<< (amount % 128)) % granMod)
    pure (m, none)
  | .Sll => do
    let dst := reg op.op1
    let val ← m.rread_data (reg op.op2)
    let amount ← m.rread_data (reg op.op3)
    let m ← m.rwrite_data dst ((val <<< (amount % 128)) % granMod)
    pure (m, none)
  | .SrlI => do
    let dst := reg op.op1
    let val ← m.rread_data (reg op.op2)
    let amount := op.op3.to_ugran
    let m ← m.rwrite_data dst (val >>> (amount % 128))
    pure (m, none)
  | .Srl => do
    let dst := reg op.op1
    let val ← m.rread_data (reg op.op2)
    let amount ← m.rread_data (reg op.op3)
    let m ← m.rwrite_data dst (val >>> (amount % 128))
    pure (m, none)
  | .SraI => do
    let dst := reg op.op1
    let val ← m.rread_ty sgranTy (reg op.op2)
    let amount := op.op3.to_ugran
    let m ← m.rwrite_ty sgranTy dst (Int.fdiv val (2 ^ (amount % 128)))
    pure (m, none)
  | .Sra => do
    let dst := reg op.op1
    let val ← m.rread_ty sgranTy (reg op.op2)
    let amount ← m.rread_data (reg op.op3)
    let m ← m.rwrite_ty sgranTy dst (Int.fdiv val (2 ^ (amount % 128)))
    pure (m, none)
  | .Jal => do
    let ra_dst := reg op.op1
    let offset := addr_sign (op.op2.to_ugran % uaddrMod)
    let m ← m.rwrite ra_dst inc_pc
    pure (m, some (pc.set_addr (pc.addr.offset offset)))
  | .Jalr => do
    let ra_dst := reg op.op1
    let base ← m.rread_ty (intTy 8) (reg op.op2)
    let offset_imm := addr_sign (op.op3.to_ugran % uaddrMod)
    let m ← m.rwrite ra_dst inc_pc
    pure (m, some (pc.set_addr (Address.offset ⟨base⟩ offset_imm)))
  | .Beq => do
    let cmp1 ← m.rread_data (reg op.op1)
    let cmp2 ← m.rread_data (reg op.op2)
    let offset := addr_sign (op.op3.to_ugran % uaddrMod)
    pure (m, if cmp1 = cmp2 then some (pc.set_addr (pc.addr.offset offset))
      else none)
  | .Bne => do
    let cmp1 ← m.rread_data (reg op.op1)
    let cmp2 ← m.rread_data (reg op.op2)
    let offset := addr_sign (op.op3.to_ugran % uaddrMod)
    pure (m, if cmp1 ≠ cmp2 then some (pc.set_addr (pc.addr.offset offset))
      else none)
  | .Blts => do
    let cmp1 ← m.rread_ty sgranTy (reg op.op1)
    let cmp2 ← m.rread_ty sgranTy (reg op.op2)
    let offset := addr_sign (op.op3.to_ugran % uaddrMod)
    pure (m, if cmp1 < cmp2 then some (pc.set_addr (pc.addr.offset offset))
      else none)
  | .Bges => do
    let cmp1 ← m.rread_ty sgranTy (reg op.op1)
    let cmp2 ← m.rread_ty sgranTy (reg op.op2)
    let offset := addr_sign (op.op3.to_ugran % uaddrMod)
    pure (m, if cmp1 ≥ cmp2 then some (pc.set_addr (pc.addr.offset offset))
      else none)
  | .Bltu => do
    let cmp1 ← m.rread_data (reg op.op1)
    let cmp2 ← m.rread_data (reg op.op2)
    let offset := addr_sign (op.op3.to_ugran % uaddrMod)
    pure (m, if cmp1 < cmp2 then some (pc.set_addr (pc.addr.offset offset))
      else none)
  | .Bgeu => do
    let cmp1 ← m.rread_data (reg op.op1)
    let cmp2 ← m.rread_data (reg op.op2)
    let offset := addr_sign (op.op3.to_ugran % uaddrMod)
    pure (m, if cmp1 ≥ cmp2 then some (pc.set_addr (pc.addr.offset offset))
      else none)
  | .Syscall => do
    let kind ← m.rread_ty syscallKindTy 13
    match kind with
    | .Exit => .error .ProcessExit
    | .AllocInit => do
      let strategy ← m.rread_ty strategyTy 14
      let flags ← m.rread_ty initFlagsTy 15
      let region ← m.rread 16
      let p ← alloc.init strategy flags region m
      let m ← p.2.rwrite 11 p.1
      pure (m, none)
    | .AllocDeInit => do
      let ator ← m.rread 14
      let p ← alloc.deinit ator m
      let m ← p.2.rwrite 11 p.1
      pure (m, none)
    | .AllocAlloc => do
      let ator ← m.rread 14
      let layout ← m.rread_ty layoutTy 15
      let p ← alloc.alloc ator layout m
      let m ← p.2.rwrite 11 p.1
      pure (m, none)
    | .AllocFree => do
      let ator ← m.rread 14
      let ation ← m.rread 15
      let m ← alloc.free ator ation m
      pure (m, none)
    | .AllocFreeAll => do
      let ator ← m.rread 14
      let m ← alloc.free_all ator m
      pure (m, none)
    | .AllocStat => do
      let ator ← m.rread 14
      let stats ← alloc.stat ator m
      let m ← m.rwrite_ty statsTy 11 stats
      pure (m, none)

/-- `Memory::execute_op`: fetch the program counter (unless supplied),
pre-emptively advance it by `Op::LAYOUT.size` (the source unwraps this
write; register `Pc` always passes the register check, so the checked
write is equivalent), dispatch, then commit any `return_address`
override. -/
def Memory.execute_op (m : Memory) (op : Op)
    (pcArg : Option TaggedCapability) (bump_pc : Bool) :
    Except Exception Memory := do
  let pc ← match pcArg with
    | some cap => pure cap
    | none => m.rread 1
  let inc_pc := if bump_pc then pc.set_addr (pc.addr.add opTy.layout.size)
    else pc
  let m ← if bump_pc then m.rwrite 1 inc_pc else pure m
  let r ← m.execute_dispatch op pc inc_pc
  match r.2 with
  | some ra => r.1.rwrite 1 ra
  | none => pure r.1

/-- `Memory::execute_next`: read `Pc` (an unwrap in the source that never
fails), fetch the `Op` there, check `Execute` access and dispatch with the
pre-emptive advance. -/
def Memory.execute_next (m : Memory) : Except Exception Memory := do
  let pc ← m.rread 1
  let op ← Memory.readT opTy m pc
  let _ ← pc.check_access .Execute opTy.layout.align (some opTy.layout.size)
  m.execute_op op (some pc) true

/-- Claim-side classification: the jump and branch opcodes excluded by the
PC-hygiene property. -/
def OpKind.is_jump_or_branch : OpKind → Bool
  | .Jal | .Jalr | .Beq | .Bne | .Blts | .Bges | .Bltu | .Bgeu => true
  | _ => false

/-- Claim-side classification: whether one of the instruction's
destination-register operands names `Pc` (register 1), so that the
dispatch itself writes the program counter. -/
def Op.writes_pc (op : Op) : Bool :=
  match op.kind with
  | .CGetBound => reg op.op1 == 1 || reg op.op2 == 1
  | .Store8 | .Store16 | .Store32 | .Store64 | .StoreC
  | .Beq | .Bne | .Blts | .Bges | .Bltu | .Bgeu | .Syscall => false
  | _ => reg op.op1 == 1

/-! ## Theorems: helper lemmas and the claims -/

/-- Inversion of a successful `Except` bind. -/
theorem exbind_ok {α β : Type} {e : Except Exception α}
    {f : α → Except Exception β} {b : β} (h : e >>= f = .ok b) :
    ∃ a, e = .ok a ∧ f a = .ok b := by
  cases e with
  | ok a => exact ⟨a, rfl, h⟩
  | error ex => simp [Bind.bind, Except.bind] at h

/-- Inversion of a successful `Except` pure. -/
theorem expure_ok {α : Type} {a b : α}
    (h : (pure a : Except Exception α) = .ok b) : a = b := by
  simpa [pure, Except.pure] using h

/-- `List.set` at one index leaves `getD` at another unchanged. -/
theorem getD_set_ne {α : Type} (l : List α) (i j : Nat) (a d : α)
    (hij : i ≠ j) : (l.set i a).getD j d = l.getD j d := by
  induction l generalizing i j with
  | nil => simp
  | cons x xs ih =>
    cases i with
    | zero =>
      cases j with
      | zero => exact absurd rfl hij
      | succ j => simp
    | succ i =>
      cases j with
      | zero => simp
      | succ j => simpa using ih i j (by omega)

/-- `List.set` inside the list is observed by `getD` at that index. -/
theorem getD_set_self {α : Type} (l : List α) (j : Nat) (a d : α)
    (hj : j < l.length) : (l.set j a).getD j d = a := by
  induction l generalizing j with
  | nil => simp at hj
  | cons x xs ih =>
    cases j with
    | zero => simp
    | succ j => simpa using ih j (by simpa using hj)

/-- A `Memory.rwrite` to a register other than `Pc` leaves the `Pc` slot
of the register file unchanged. -/
theorem rwrite_pc_frame {m : Memory} {r : Nat} {cap : TaggedCapability}
    {m' : Memory} (h : m.rwrite r cap = .ok m') (hr : r ≠ 1) :
    m'.regs.getD 1 Capability.INVALID = m.regs.getD 1 Capability.INVALID := by
  by_cases hv : Registers.is_reg_valid r
  · simp only [Memory.rwrite, Registers.write, RegAccess.check_reg, hv,
      if_true, Except.ok.injEq] at h
    have hidx : Registers.reg_to_idx r = r := by
      simpa [Registers.is_reg_valid, Registers.reg_to_idx,
        Registers.MASK] using hv
    subst h
    simpa [hidx] using getD_set_ne m.regs r 1 cap.capa Capability.INVALID hr
  · simp [Memory.rwrite, Registers.write, RegAccess.check_reg, hv] at h

/-- A `Memory.rwrite_ty` to a register other than `Pc` leaves the `Pc`
slot unchanged. -/
theorem rwrite_ty_pc_frame {α : Type} {ty : TyImpl α} {m : Memory} {r : Nat}
    {v : α} {m' : Memory} (h : m.rwrite_ty ty r v = .ok m') (hr : r ≠ 1) :
    m'.regs.getD 1 Capability.INVALID = m.regs.getD 1 Capability.INVALID := by
  by_cases hv : Registers.is_reg_valid r
  · by_cases hl : Registers.is_len_valid ty.layout.size
    · simp only [Memory.rwrite_ty, Registers.write_ty, RegAccess.check_reg,
        RegAccess.check_len, hv, hl, if_true] at h
      have hidx : Registers.reg_to_idx r = r := by
        simpa [Registers.is_reg_valid, Registers.reg_to_idx,
          Registers.MASK] using hv
      split at h
      next => simp at h
      next regs2 tags2 heq =>
        have hm := Except.ok.inj h
        subst hm
        split at heq
        next => simp at heq
        next bytes tagbits heq2 =>
          have hp := Except.ok.inj heq
          have hregs : m.regs.set (Registers.reg_to_idx r)
              (Capability.from_ugran (fromLEBytes
                (bytes ++ List.replicate (16 - ty.layout.size) 0))) = regs2 :=
            congrArg Prod.fst hp
          show regs2.getD 1 Capability.INVALID =
            m.regs.getD 1 Capability.INVALID
          rw [← hregs, hidx]
          exact getD_set_ne m.regs r 1 _ Capability.INVALID hr
    · simp [Memory.rwrite_ty, Registers.write_ty, RegAccess.check_reg,
        RegAccess.check_len, hv, hl] at h
  · simp [Memory.rwrite_ty, Registers.write_ty, RegAccess.check_reg, hv] at h

/-- A `Memory.rwrite` to `Pc` stores exactly the written capability word
in the `Pc` slot. -/
theorem rwrite_pc_value {m : Memory} {cap : TaggedCapability} {m' : Memory}
    (h : m.rwrite 1 cap = .ok m') (hlen : 1 < m.regs.length) :
    m'.regs.getD 1 Capability.INVALID = cap.capa := by
  have hv : Registers.is_reg_valid 1 = true := by decide
  simp only [Memory.rwrite, Registers.write, RegAccess.check_reg, hv,
    if_true, Except.ok.injEq] at h
  subst h
  have hidx : Registers.reg_to_idx 1 = 1 := by decide
  simpa [hidx] using getD_set_self m.regs 1 cap.capa Capability.INVALID hlen

/-- `Memory.writeT` never touches the register file. -/
theorem writeT_regs {α : Type} {ty : TyImpl α} {m : Memory}
    {dst : TaggedCapability} {v : α} {m' : Memory}
    (h : Memory.writeT ty m dst v = .ok m') : m'.regs = m.regs := by
  simp only [Memory.writeT] at h
  split at h
  case h_1 => simp at h
  case h_2 =>
    split at h
    case h_1 => simp at h
    case h_2 =>
      split at h
      case h_1 => simp at h
      case h_2 =>
        split at h
        case h_1 => simp at h
        case h_2 =>
          have hm := Except.ok.inj h
          subst hm
          rfl

/-- `Memory.memset` never touches the register file. -/
theorem memset_regs {m : Memory} {dst : TaggedCapability} {count byte : Nat}
    {m' : Memory} (h : Memory.memset m dst count byte = .ok m') :
    m'.regs = m.regs := by
  simp only [Memory.memset] at h
  split at h
  case h_1 => simp at h
  case h_2 =>
    have hm := Except.ok.inj h
    subst hm
    rfl

/-- `revoke::by_bounds` only clears tag bits: one step preserves the
register file. -/
theorem revoke_step_regs {root : TaggedCapability} {s e : Address}
    {m : Memory} {idx : Nat} {m' : Memory}
    (h : revoke.step root s e m idx = .ok m') : m'.regs = m.regs := by
  simp only [revoke.step] at h
  split at h
  case isTrue =>
    split at h
    case h_1 =>
      have hm := Except.ok.inj h
      subst hm
      simp only [revoke.clearIfMatch]
      split <;> rfl
    case h_2 =>
      split at h
      case h_1 => simp at h
      case h_2 =>
        have hm := Except.ok.inj h
        subst hm
        simp only [revoke.clearIfMatch]
        split <;> rfl
  case isFalse =>
    have hm := Except.ok.inj h
    subst hm
    rfl

/-- The scan of `revoke::by_bounds` preserves the register file. -/
theorem revoke_fold_regs {root : TaggedCapability} {s e : Address} :
    ∀ (l : List Nat) (m m' : Memory),
      l.foldlM (revoke.step root s e) m = .ok m' → m'.regs = m.regs := by
  intro l
  induction l with
  | nil =>
    intro m m' h
    have hm := expure_ok h
    subst hm
    rfl
  | cons a l ih =>
    intro m m' h
    rw [List.foldlM_cons] at h
    obtain ⟨m1, h1, h2⟩ := exbind_ok h
    rw [ih m1 m' h2, revoke_step_regs h1]

/-- `revoke::by_bounds` preserves the register file. -/
theorem revoke_regs {m : Memory} {s e : Address} {m' : Memory}
    (h : revoke.by_bounds m s e = .ok m') : m'.regs = m.regs := by
  simp only [revoke.by_bounds] at h
  exact revoke_fold_regs _ _ _ h

/-- `CustomFields::write_next` goes through `Memory::write` and preserves
the register file. -/
theorem custom_write_next_regs {α : Type} {ty : TyImpl α} {v : α}
    {base : TaggedCapability} {cur : Nat} {m : Memory} {m' : Memory}
    {cur' : Nat} (h : CustomFields.write_next ty v base cur m = .ok (m', cur')) :
    m'.regs = m.regs := by
  simp only [CustomFields.write_next] at h
  split at h
  case h_1 => simp at h
  case h_2 m2 heq =>
    have hm := Except.ok.inj h
    have : m2 = m' := congrArg Prod.fst hm
    subst this
    exact writeT_regs heq

set_option maxHeartbeats 2000000 in
/-- `alloc::init` preserves the register file. -/
theorem alloc_init_regs {strat : Strategy} {flags : InitFlags}
    {region : TaggedCapability} {m : Memory} {ator : TaggedCapability}
    {m' : Memory} (h : alloc.init strat flags region m = .ok (ator, m')) :
    m'.regs = m.regs := by
  simp only [alloc.init] at h
  split at h
  case h_1 => simp at h
  case h_2 =>
    split at h
    case h_1 => simp at h
    case h_2 m1 hrev =>
      split at h
      case h_1 => simp at h
      case h_2 m2 cur hw1 =>
        split at h
        case h_1 => simp at h
        case h_2 m3 c2 hw2 =>
          have hm := Except.ok.inj h
          have : m3 = m' := congrArg Prod.snd hm
          subst this
          rw [custom_write_next_regs hw2, custom_write_next_regs hw1,
            revoke_regs hrev]

set_option maxHeartbeats 2000000 in
/-- `alloc::deinit` preserves the register file. -/
theorem alloc_deinit_regs {ator : TaggedCapability} {m : Memory}
    {region : TaggedCapability} {m' : Memory}
    (h : alloc.deinit ator m = .ok (region, m')) : m'.regs = m.regs := by
  simp only [alloc.deinit] at h
  split at h
  case h_1 => simp at h
  case h_2 header cur hh =>
    split at h
    case h_1 => simp at h
    case h_2 bump hcur hb =>
      split at h
      case h_1 => simp at h
      case h_2 m1 hw =>
        split at h
        case h_1 => simp at h
        case h_2 m2 hms =>
          split at h
          case h_1 => simp at h
          case h_2 m3 hrev =>
            have hm := Except.ok.inj h
            have : m3 = m' := congrArg Prod.snd hm
            subst this
            have hms' : m2.regs = m1.regs := by
              revert hms
              split
              · intro hms
                exact memset_regs hms
              · intro hms
                have := Except.ok.inj hms
                subst this
                rfl
            rw [revoke_regs hrev, hms', writeT_regs hw]

set_option maxHeartbeats 2000000 in
/-- `alloc::alloc` preserves the register file. -/
theorem alloc_alloc_regs {ator : TaggedCapability} {l : Layout} {m : Memory}
    {ation : TaggedCapability} {m' : Memory}
    (h : alloc.alloc ator l m = .ok (ation, m')) : m'.regs = m.regs := by
  simp only [alloc.alloc] at h
  split at h
  case h_1 => simp at h
  case h_2 header cur hh =>
    split at h
    case h_1 => simp at h
    case h_2 bump hcur hb =>
      split at h
      case h_1 => simp at h
      case h_2 ation2 bump2 halloc =>
        split at h
        case h_1 => simp at h
        case h_2 m1 hw =>
          split at h
          case h_1 => simp at h
          case h_2 m2 hms =>
            have hm := Except.ok.inj h
            have : m2 = m' := congrArg Prod.snd hm
            subst this
            have hms' : m2.regs = m1.regs := by
              revert hms
              split
              · intro hms
                exact memset_regs hms
              · intro hms
                have := Except.ok.inj hms
                subst this
                rfl
            rw [hms', writeT_regs hw]

/-- `alloc::free` is unimplemented and never succeeds. -/
theorem alloc_free_not_ok {ator ation : TaggedCapability} {m m' : Memory} :
    alloc.free ator ation m ≠ .ok m' := by
  simp [alloc.free]

set_option maxHeartbeats 2000000 in
/-- `alloc::free_all` preserves the register file. -/
theorem alloc_free_all_regs {ator : TaggedCapability} {m : Memory}
    {m' : Memory} (h : alloc.free_all ator m = .ok m') : m'.regs = m.regs := by
  simp only [alloc.free_all] at h
  split at h
  case h_1 => simp at h
  case h_2 header cur hh =>
    split at h
    case h_1 => simp at h
    case h_2 bump hcur hb =>
      split at h
      case h_1 => simp at h
      case h_2 m1 hrev =>
        split at h
        case h_1 => simp at h
        case h_2 m2 hms =>
          split at h
          case h_1 => simp at h
          case h_2 m3 hw =>
            have hm := Except.ok.inj h
            subst hm
            have hms' : m2.regs = m1.regs := by
              revert hms
              split
              · intro hms
                exact memset_regs hms
              · intro hms
                have := Except.ok.inj hms
                subst this
                rfl
            rw [writeT_regs hw, hms', revoke_regs hrev]



theorem clog_eq_of_between (n i : Nat) (hlow : ∀ j, j < i → 2 ^ j < n)
    (hup : n ≤ 2 ^ i) : Nat.clog 2 n = i := by
  refine Nat.le_antisymm ((Nat.le_pow_iff_clog_le (by norm_num)).mp hup) ?_
  match i, hlow with
  | 0, _ => exact Nat.zero_le _
  | i + 1, hlow =>
    by_contra hcon
    push_neg at hcon
    have h1 : n ≤ 2 ^ i :=
      (Nat.le_pow_iff_clog_le (by norm_num)).mpr (by omega)
    have h2 := hlow i (Nat.lt_succ_self i)
    omega

theorem np2From_eq (n : Nat) : ∀ (fuel i : Nat),
    (∀ j, j < i → 2 ^ j < n) → n ≤ 2 ^ (i + fuel) →
    np2From n fuel (2 ^ i) = 2 ^ Nat.clog 2 n := by
  intro fuel
  induction fuel with
  | zero =>
    intro i hlow hup
    rw [np2From, clog_eq_of_between n i hlow (by simpa using hup)]
  | succ fuel ih =>
    intro i hlow hup
    rw [np2From]
    by_cases hn : n ≤ 2 ^ i
    · rw [if_pos hn, clog_eq_of_between n i hlow hn]
    · rw [if_neg hn, show 2 * 2 ^ i = 2 ^ (i + 1) by ring]
      refine ih (i + 1) (fun j hj => ?_) ?_
      · rcases Nat.lt_succ_iff_lt_or_eq.mp hj with h | h
        · exact hlow j h
        · subst h
          omega
      · rw [show i + 1 + fuel = i + (fuel + 1) by omega]
        exact hup

set_option maxHeartbeats 4000000 in
/-- The dispatch of a non-jump instruction whose destination operands
avoid `Pc` neither changes the `Pc` register slot nor overrides the
return address. -/
theorem execute_dispatch_pc_frame (m : Memory) (op : Op)
    (pc inc_pc : TaggedCapability) (m' : Memory)
    (ra : Option TaggedCapability)
    (hjump : OpKind.is_jump_or_branch op.kind = false)
    (hdst : Op.writes_pc op = false)
    (h : Memory.execute_dispatch m op pc inc_pc = .ok (m', ra)) :
    m'.regs.getD 1 Capability.INVALID = m.regs.getD 1 Capability.INVALID ∧
      ra = none := by
  obtain ⟨kind, op1, op2, op3⟩ := op
  cases kind
  case CGetAddr =>
    simp only [Memory.execute_dispatch] at h
    simp only [Op.writes_pc] at hdst
    obtain ⟨x0, hx0, h⟩ := exbind_ok h
    obtain ⟨m2, hw, h⟩ := exbind_ok h
    have hp := Except.ok.inj h
    have hm : m2 = m' := congrArg Prod.fst hp
    have hra := congrArg Prod.snd hp
    subst hm
    refine ⟨?_, hra.symm⟩
    exact rwrite_ty_pc_frame hw (by simpa using hdst)
  case CSetAddr =>
    simp only [Memory.execute_dispatch] at h
    simp only [Op.writes_pc] at hdst
    obtain ⟨x0, hx0, h⟩ := exbind_ok h
    obtain ⟨x1, hx1, h⟩ := exbind_ok h
    obtain ⟨m2, hw, h⟩ := exbind_ok h
    have hp := Except.ok.inj h
    have hm : m2 = m' := congrArg Prod.fst hp
    have hra := congrArg Prod.snd hp
    subst hm
    refine ⟨?_, hra.symm⟩
    exact rwrite_pc_frame hw (by simpa using hdst)
  case CSetBound =>
    simp only [Memory.execute_dispatch] at h
    simp only [Op.writes_pc] at hdst
    obtain ⟨x0, hx0, h⟩ := exbind_ok h
    obtain ⟨x1, hx1, h⟩ := exbind_ok h
    obtain ⟨x2, hx2, h⟩ := exbind_ok h
    obtain ⟨m2, hw, h⟩ := exbind_ok h
    have hp := Except.ok.inj h
    have hm : m2 = m' := congrArg Prod.fst hp
    have hra := congrArg Prod.snd hp
    subst hm
    refine ⟨?_, hra.symm⟩
    exact rwrite_pc_frame hw (by simpa using hdst)
  case CGetPerm =>
    simp only [Memory.execute_dispatch] at h
    simp only [Op.writes_pc] at hdst
    obtain ⟨x0, hx0, h⟩ := exbind_ok h
    obtain ⟨m2, hw, h⟩ := exbind_ok h
    have hp := Except.ok.inj h
    have hm : m2 = m' := congrArg Prod.fst hp
    have hra := congrArg Prod.snd hp
    subst hm
    refine ⟨?_, hra.symm⟩
    exact rwrite_ty_pc_frame hw (by simpa using hdst)
  case CSetPerm =>
    simp only [Memory.execute_dispatch] at h
    simp only [Op.writes_pc] at hdst
    obtain ⟨x0, hx0, h⟩ := exbind_ok h
    obtain ⟨x1, hx1, h⟩ := exbind_ok h
    obtain ⟨m2, hw, h⟩ := exbind_ok h
    have hp := Except.ok.inj h
    have hm : m2 = m' := congrArg Prod.fst hp
    have hra := congrArg Prod.snd hp
    subst hm
    refine ⟨?_, hra.symm⟩
    exact rwrite_pc_frame hw (by simpa using hdst)
  case CGetValid =>
    simp only [Memory.execute_dispatch] at h
    simp only [Op.writes_pc] at hdst
    obtain ⟨x0, hx0, h⟩ := exbind_ok h
    obtain ⟨m2, hw, h⟩ := exbind_ok h
    have hp := Except.ok.inj h
    have hm : m2 = m' := congrArg Prod.fst hp
    have hra := congrArg Prod.snd hp
    subst hm
    refine ⟨?_, hra.symm⟩
    exact rwrite_ty_pc_frame hw (by simpa using hdst)
  case CGetType =>
    simp only [Memory.execute_dispatch] at h
    simp only [Op.writes_pc] at hdst
    obtain ⟨x0, hx0, h⟩ := exbind_ok h
    obtain ⟨m2, hw, h⟩ := exbind_ok h
    have hp := Except.ok.inj h
    have hm : m2 = m' := congrArg Prod.fst hp
    have hra := congrArg Prod.snd hp
    subst hm
    refine ⟨?_, hra.symm⟩
    exact rwrite_ty_pc_frame hw (by simpa using hdst)
  case CSeal =>
    simp only [Memory.execute_dispatch] at h
    simp only [Op.writes_pc] at hdst
    obtain ⟨x0, hx0, h⟩ := exbind_ok h
    obtain ⟨x1, hx1, h⟩ := exbind_ok h
    obtain ⟨m2, hw, h⟩ := exbind_ok h
    have hp := Except.ok.inj h
    have hm : m2 = m' := congrArg Prod.fst hp
    have hra := congrArg Prod.snd hp
    subst hm
    refine ⟨?_, hra.symm⟩
    exact rwrite_pc_frame hw (by simpa using hdst)
  case CUnseal =>
    simp only [Memory.execute_dispatch] at h
    simp only [Op.writes_pc] at hdst
    obtain ⟨x0, hx0, h⟩ := exbind_ok h
    obtain ⟨x1, hx1, h⟩ := exbind_ok h
    obtain ⟨m2, hw, h⟩ := exbind_ok h
    have hp := Except.ok.inj h
    have hm : m2 = m' := congrArg Prod.fst hp
    have hra := congrArg Prod.snd hp
    subst hm
    refine ⟨?_, hra.symm⟩
    exact rwrite_pc_frame hw (by simpa using hdst)
  case Cpy =>
    simp only [Memory.execute_dispatch] at h
    simp only [Op.writes_pc] at hdst
    obtain ⟨x0, hx0, h⟩ := exbind_ok h
    obtain ⟨m2, hw, h⟩ := exbind_ok h
    have hp := Except.ok.inj h
    have hm : m2 = m' := congrArg Prod.fst hp
    have hra := congrArg Prod.snd hp
    subst hm
    refine ⟨?_, hra.symm⟩
    exact rwrite_pc_frame hw (by simpa using hdst)
  case LoadI =>
    simp only [Memory.execute_dispatch] at h
    simp only [Op.writes_pc] at hdst
    obtain ⟨m2, hw, h⟩ := exbind_ok h
    have hp := Except.ok.inj h
    have hm : m2 = m' := congrArg Prod.fst hp
    have hra := congrArg Prod.snd hp
    subst hm
    refine ⟨?_, hra.symm⟩
    exact rwrite_pc_frame hw (by simpa using hdst)
  case LoadU8 =>
    simp only [Memory.execute_dispatch] at h
    simp only [Op.writes_pc] at hdst
    obtain ⟨x0, hx0, h⟩ := exbind_ok h
    obtain ⟨x1, hx1, h⟩ := exbind_ok h
    obtain ⟨m2, hw, h⟩ := exbind_ok h
    have hp := Except.ok.inj h
    have hm : m2 = m' := congrArg Prod.fst hp
    have hra := congrArg Prod.snd hp
    subst hm
    refine ⟨?_, hra.symm⟩
    exact rwrite_ty_pc_frame hw (by simpa using hdst)
  case LoadU16 =>
    simp only [Memory.execute_dispatch] at h
    simp only [Op.writes_pc] at hdst
    obtain ⟨x0, hx0, h⟩ := exbind_ok h
    obtain ⟨x1, hx1, h⟩ := exbind_ok h
    obtain ⟨m2, hw, h⟩ := exbind_ok h
    have hp := Except.ok.inj h
    have hm : m2 = m' := congrArg Prod.fst hp
    have hra := congrArg Prod.snd hp
    subst hm
    refine ⟨?_, hra.symm⟩
    exact rwrite_ty_pc_frame hw (by simpa using hdst)
  case LoadU32 =>
    simp only [Memory.execute_dispatch] at h
    simp only [Op.writes_pc] at hdst
    obtain ⟨x0, hx0, h⟩ := exbind_ok h
    obtain ⟨x1, hx1, h⟩ := exbind_ok h
    obtain ⟨m2, hw, h⟩ := exbind_ok h
    have hp := Except.ok.inj h
    have hm : m2 = m' := congrArg Prod.fst hp
    have hra := congrArg Prod.snd hp
    subst hm
    refine ⟨?_, hra.symm⟩
    exact rwrite_ty_pc_frame hw (by simpa using hdst)
  case LoadU64 =>
    simp only [Memory.execute_dispatch] at h
    simp only [Op.writes_pc] at hdst
    obtain ⟨x0, hx0, h⟩ := exbind_ok h
    obtain ⟨x1, hx1, h⟩ := exbind_ok h
    obtain ⟨m2, hw, h⟩ := exbind_ok h
    have hp := Except.ok.inj h
    have hm : m2 = m' := congrArg Prod.fst hp
    have hra := congrArg Prod.snd hp
    subst hm
    refine ⟨?_, hra.symm⟩
    exact rwrite_ty_pc_frame hw (by simpa using hdst)
  case LoadC =>
    simp only [Memory.execute_dispatch] at h
    simp only [Op.writes_pc] at hdst
    obtain ⟨x0, hx0, h⟩ := exbind_ok h
    obtain ⟨x1, hx1, h⟩ := exbind_ok h
    obtain ⟨m2, hw, h⟩ := exbind_ok h
    have hp := Except.ok.inj h
    have hm : m2 = m' := congrArg Prod.fst hp
    have hra := congrArg Prod.snd hp
    subst hm
    refine ⟨?_, hra.symm⟩
    exact rwrite_pc_frame hw (by simpa using hdst)
  case Store8 =>
    simp only [Memory.execute_dispatch] at h
    obtain ⟨x0, hx0, h⟩ := exbind_ok h
    obtain ⟨x1, hx1, h⟩ := exbind_ok h
    obtain ⟨m2, hw, h⟩ := exbind_ok h
    have hp := Except.ok.inj h
    have hm : m2 = m' := congrArg Prod.fst hp
    have hra := congrArg Prod.snd hp
    subst hm
    refine ⟨?_, hra.symm⟩
    exact congrArg (fun l => l.getD 1 Capability.INVALID) (writeT_regs hw)
  case Store16 =>
    simp only [Memory.execute_dispatch] at h
    obtain ⟨x0, hx0, h⟩ := exbind_ok h
    obtain ⟨x1, hx1, h⟩ := exbind_ok h
    obtain ⟨m2, hw, h⟩ := exbind_ok h
    have hp := Except.ok.inj h
    have hm : m2 = m' := congrArg Prod.fst hp
    have hra := congrArg Prod.snd hp
    subst hm
    refine ⟨?_, hra.symm⟩
    exact congrArg (fun l => l.getD 1 Capability.INVALID) (writeT_regs hw)
  case Store32 =>
    simp only [Memory.execute_dispatch] at h
    obtain ⟨x0, hx0, h⟩ := exbind_ok h
    obtain ⟨x1, hx1, h⟩ := exbind_ok h
    obtain ⟨m2, hw, h⟩ := exbind_ok h
    have hp := Except.ok.inj h
    have hm : m2 = m' := congrArg Prod.fst hp
    have hra := congrArg Prod.snd hp
    subst hm
    refine ⟨?_, hra.symm⟩
    exact congrArg (fun l => l.getD 1 Capability.INVALID) (writeT_regs hw)
  case Store64 =>
    simp only [Memory.execute_dispatch] at h
    obtain ⟨x0, hx0, h⟩ := exbind_ok h
    obtain ⟨x1, hx1, h⟩ := exbind_ok h
    obtain ⟨m2, hw, h⟩ := exbind_ok h
    have hp := Except.ok.inj h
    have hm : m2 = m' := congrArg Prod.fst hp
    have hra := congrArg Prod.snd hp
    subst hm
    refine ⟨?_, hra.symm⟩
    exact congrArg (fun l => l.getD 1 Capability.INVALID) (writeT_regs hw)
  case StoreC =>
    simp only [Memory.execute_dispatch] at h
    obtain ⟨x0, hx0, h⟩ := exbind_ok h
    obtain ⟨x1, hx1, h⟩ := exbind_ok h
    obtain ⟨m2, hw, h⟩ := exbind_ok h
    have hp := Except.ok.inj h
    have hm : m2 = m' := congrArg Prod.fst hp
    have hra := congrArg Prod.snd hp
    subst hm
    refine ⟨?_, hra.symm⟩
    exact congrArg (fun l => l.getD 1 Capability.INVALID) (writeT_regs hw)
  case AddI =>
    simp only [Memory.execute_dispatch] at h
    simp only [Op.writes_pc] at hdst
    obtain ⟨x0, hx0, h⟩ := exbind_ok h
    obtain ⟨m2, hw, h⟩ := exbind_ok h
    have hp := Except.ok.inj h
    have hm : m2 = m' := congrArg Prod.fst hp
    have hra := congrArg Prod.snd hp
    subst hm
    refine ⟨?_, hra.symm⟩
    simp only [Memory.rwrite_data] at hw
    exact rwrite_pc_frame hw (by simpa using hdst)
  case Add =>
    simp only [Memory.execute_dispatch] at h
    simp only [Op.writes_pc] at hdst
    obtain ⟨x0, hx0, h⟩ := exbind_ok h
    obtain ⟨x1, hx1, h⟩ := exbind_ok h
    obtain ⟨m2, hw, h⟩ := exbind_ok h
    have hp := Except.ok.inj h
    have hm : m2 = m' := congrArg Prod.fst hp
    have hra := congrArg Prod.snd hp
    subst hm
    refine ⟨?_, hra.symm⟩
    simp only [Memory.rwrite_data] at hw
    exact rwrite_pc_frame hw (by simpa using hdst)
  case Sub =>
    simp only [Memory.execute_dispatch] at h
    simp only [Op.writes_pc] at hdst
    obtain ⟨x0, hx0, h⟩ := exbind_ok h
    obtain ⟨x1, hx1, h⟩ := exbind_ok h
    obtain ⟨m2, hw, h⟩ := exbind_ok h
    have hp := Except.ok.inj h
    have hm : m2 = m' := congrArg Prod.fst hp
    have hra := congrArg Prod.snd hp
    subst hm
    refine ⟨?_, hra.symm⟩
    simp only [Memory.rwrite_data] at hw
    exact rwrite_pc_frame hw (by simpa using hdst)
  case SltsI =>
    simp only [Memory.execute_dispatch] at h
    simp only [Op.writes_pc] at hdst
    obtain ⟨x0, hx0, h⟩ := exbind_ok h
    obtain ⟨m2, hw, h⟩ := exbind_ok h
    have hp := Except.ok.inj h
    have hm : m2 = m' := congrArg Prod.fst hp
    have hra := congrArg Prod.snd hp
    subst hm
    refine ⟨?_, hra.symm⟩
    exact rwrite_ty_pc_frame hw (by simpa using hdst)
  case SltuI =>
    simp only [Memory.execute_dispatch] at h
    simp only [Op.writes_pc] at hdst
    obtain ⟨x0, hx0, h⟩ := exbind_ok h
    obtain ⟨m2, hw, h⟩ := exbind_ok h
    have hp := Except.ok.inj h
    have hm : m2 = m' := congrArg Prod.fst hp
    have hra := congrArg Prod.snd hp
    subst hm
    refine ⟨?_, hra.symm⟩
    exact rwrite_ty_pc_frame hw (by simpa using hdst)
  case Slts =>
    simp only [Memory.execute_dispatch] at h
    simp only [Op.writes_pc] at hdst
    obtain ⟨x0, hx0, h⟩ := exbind_ok h
    obtain ⟨x1, hx1, h⟩ := exbind_ok h
    obtain ⟨m2, hw, h⟩ := exbind_ok h
    have hp := Except.ok.inj h
    have hm : m2 = m' := congrArg Prod.fst hp
    have hra := congrArg Prod.snd hp
    subst hm
    refine ⟨?_, hra.symm⟩
    exact rwrite_ty_pc_frame hw (by simpa using hdst)
  case Sltu =>
    simp only [Memory.execute_dispatch] at h
    simp only [Op.writes_pc] at hdst
    obtain ⟨x0, hx0, h⟩ := exbind_ok h
    obtain ⟨x1, hx1, h⟩ := exbind_ok h
    obtain ⟨m2, hw, h⟩ := exbind_ok h
    have hp := Except.ok.inj h
    have hm : m2 = m' := congrArg Prod.fst hp
    have hra := congrArg Prod.snd hp
    subst hm
    refine ⟨?_, hra.symm⟩
    exact rwrite_ty_pc_frame hw (by simpa using hdst)
  case XorI =>
    simp only [Memory.execute_dispatch] at h
    simp only [Op.writes_pc] at hdst
    obtain ⟨x0, hx0, h⟩ := exbind_ok h
    obtain ⟨m2, hw, h⟩ := exbind_ok h
    have hp := Except.ok.inj h
    have hm : m2 = m' := congrArg Prod.fst hp
    have hra := congrArg Prod.snd hp
    subst hm
    refine ⟨?_, hra.symm⟩
    simp only [Memory.rwrite_data] at hw
    exact rwrite_pc_frame hw (by simpa using hdst)
  case Xor =>
    simp only [Memory.execute_dispatch] at h
    simp only [Op.writes_pc] at hdst
    obtain ⟨x0, hx0, h⟩ := exbind_ok h
    obtain ⟨x1, hx1, h⟩ := exbind_ok h
    obtain ⟨m2, hw, h⟩ := exbind_ok h
    have hp := Except.ok.inj h
    have hm : m2 = m' := congrArg Prod.fst hp
    have hra := congrArg Prod.snd hp
    subst hm
    refine ⟨?_, hra.symm⟩
    simp only [Memory.rwrite_data] at hw
    exact rwrite_pc_frame hw (by simpa using hdst)
  case OrI =>
    simp only [Memory.execute_dispatch] at h
    simp only [Op.writes_pc] at hdst
    obtain ⟨x0, hx0, h⟩ := exbind_ok h
    obtain ⟨m2, hw, h⟩ := exbind_ok h
    have hp := Except.ok.inj h
    have hm : m2 = m' := congrArg Prod.fst hp
    have hra := congrArg Prod.snd hp
    subst hm
    refine ⟨?_, hra.symm⟩
    simp only [Memory.rwrite_data] at hw
    exact rwrite_pc_frame hw (by simpa using hdst)
  case Or =>
    simp only [Memory.execute_dispatch] at h
    simp only [Op.writes_pc] at hdst
    obtain ⟨x0, hx0, h⟩ := exbind_ok h
    obtain ⟨x1, hx1, h⟩ := exbind_ok h
    obtain ⟨m2, hw, h⟩ := exbind_ok h
    have hp := Except.ok.inj h
    have hm : m2 = m' := congrArg Prod.fst hp
    have hra := congrArg Prod.snd hp
    subst hm
    refine ⟨?_, hra.symm⟩
    simp only [Memory.rwrite_data] at hw
    exact rwrite_pc_frame hw (by simpa using hdst)
  case AndI =>
    simp only [Memory.execute_dispatch] at h
    simp only [Op.writes_pc] at hdst
    obtain ⟨x0, hx0, h⟩ := exbind_ok h
    obtain ⟨m2, hw, h⟩ := exbind_ok h
    have hp := Except.ok.inj h
    have hm : m2 = m' := congrArg Prod.fst hp
    have hra := congrArg Prod.snd hp
    subst hm
    refine ⟨?_, hra.symm⟩
    simp only [Memory.rwrite_data] at hw
    exact rwrite_pc_frame hw (by simpa using hdst)
  case And =>
    simp only [Memory.execute_dispatch] at h
    simp only [Op.writes_pc] at hdst
    obtain ⟨x0, hx0, h⟩ := exbind_ok h
    obtain ⟨x1, hx1, h⟩ := exbind_ok h
    obtain ⟨m2, hw, h⟩ := exbind_ok h
    have hp := Except.ok.inj h
    have hm : m2 = m' := congrArg Prod.fst hp
    have hra := congrArg Prod.snd hp
    subst hm
    refine ⟨?_, hra.symm⟩
    simp only [Memory.rwrite_data] at hw
    exact rwrite_pc_frame hw (by simpa using hdst)
  case SllI =>
    simp only [Memory.execute_dispatch] at h
    simp only [Op.writes_pc] at hdst
    obtain ⟨x0, hx0, h⟩ := exbind_ok h
    obtain ⟨m2, hw, h⟩ := exbind_ok h
    have hp := Except.ok.inj h
    have hm : m2 = m' := congrArg Prod.fst hp
    have hra := congrArg Prod.snd hp
    subst hm
    refine ⟨?_, hra.symm⟩
    simp only [Memory.rwrite_data] at hw
    exact rwrite_pc_frame hw (by simpa using hdst)
  case Sll =>
    simp only [Memory.execute_dispatch] at h
    simp only [Op.writes_pc] at hdst
    obtain ⟨x0, hx0, h⟩ := exbind_ok h
    obtain ⟨x1, hx1, h⟩ := exbind_ok h
    obtain ⟨m2, hw, h⟩ := exbind_ok h
    have hp := Except.ok.inj h
    have hm : m2 = m' := congrArg Prod.fst hp
    have hra := congrArg Prod.snd hp
    subst hm
    refine ⟨?_, hra.symm⟩
    simp only [Memory.rwrite_data] at hw
    exact rwrite_pc_frame hw (by simpa using hdst)
  case SrlI =>
    simp only [Memory.execute_dispatch] at h
    simp only [Op.writes_pc] at hdst
    obtain ⟨x0, hx0, h⟩ := exbind_ok h
    obtain ⟨m2, hw, h⟩ := exbind_ok h
    have hp := Except.ok.inj h
    have hm : m2 = m' := congrArg Prod.fst hp
    have hra := congrArg Prod.snd hp
    subst hm
    refine ⟨?_, hra.symm⟩
    simp only [Memory.rwrite_data] at hw
    exact rwrite_pc_frame hw (by simpa using hdst)
  case Srl =>
    simp only [Memory.execute_dispatch] at h
    simp only [Op.writes_pc] at hdst
    obtain ⟨x0, hx0, h⟩ := exbind_ok h
    obtain ⟨x1, hx1, h⟩ := exbind_ok h
    obtain ⟨m2, hw, h⟩ := exbind_ok h
    have hp := Except.ok.inj h
    have hm : m2 = m' := congrArg Prod.fst hp
    have hra := congrArg Prod.snd hp
    subst hm
    refine ⟨?_, hra.symm⟩
    simp only [Memory.rwrite_data] at hw
    exact rwrite_pc_frame hw (by simpa using hdst)
  case SraI =>
    simp only [Memory.execute_dispatch] at h
    simp only [Op.writes_pc] at hdst
    obtain ⟨x0, hx0, h⟩ := exbind_ok h
    obtain ⟨m2, hw, h⟩ := exbind_ok h
    have hp := Except.ok.inj h
    have hm : m2 = m' := congrArg Prod.fst hp
    have hra := congrArg Prod.snd hp
    subst hm
    refine ⟨?_, hra.symm⟩
    exact rwrite_ty_pc_frame hw (by simpa using hdst)
  case Sra =>
    simp only [Memory.execute_dispatch] at h
    simp only [Op.writes_pc] at hdst
    obtain ⟨x0, hx0, h⟩ := exbind_ok h
    obtain ⟨x1, hx1, h⟩ := exbind_ok h
    obtain ⟨m2, hw, h⟩ := exbind_ok h
    have hp := Except.ok.inj h
    have hm : m2 = m' := congrArg Prod.fst hp
    have hra := congrArg Prod.snd hp
    subst hm
    refine ⟨?_, hra.symm⟩
    exact rwrite_ty_pc_frame hw (by simpa using hdst)
  case CGetBound =>
    simp only [Memory.execute_dispatch] at h
    simp [Op.writes_pc] at hdst
    obtain ⟨tcap, h1, h⟩ := exbind_ok h
    obtain ⟨m2, hw1, h⟩ := exbind_ok h
    obtain ⟨m3, hw2, h⟩ := exbind_ok h
    have hp := Except.ok.inj h
    have hm : m3 = m' := congrArg Prod.fst hp
    have hra := congrArg Prod.snd hp
    subst hm
    refine ⟨?_, hra.symm⟩
    exact (rwrite_ty_pc_frame hw2 (by simpa using hdst.2)).trans
      (rwrite_ty_pc_frame hw1 (by simpa using hdst.1))
  case Jal =>
    simp [OpKind.is_jump_or_branch] at hjump
  case Jalr =>
    simp [OpKind.is_jump_or_branch] at hjump
  case Beq =>
    simp [OpKind.is_jump_or_branch] at hjump
  case Bne =>
    simp [OpKind.is_jump_or_branch] at hjump
  case Blts =>
    simp [OpKind.is_jump_or_branch] at hjump
  case Bges =>
    simp [OpKind.is_jump_or_branch] at hjump
  case Bltu =>
    simp [OpKind.is_jump_or_branch] at hjump
  case Bgeu =>
    simp [OpKind.is_jump_or_branch] at hjump
  case Syscall =>
    simp only [Memory.execute_dispatch] at h
    obtain ⟨kind, hk, h⟩ := exbind_ok h
    cases kind
    case Exit => simp [Bind.bind, Except.bind] at h
    case AllocInit =>
      obtain ⟨strat, h1, h⟩ := exbind_ok h
      obtain ⟨flags, h2, h⟩ := exbind_ok h
      obtain ⟨region, h3, h⟩ := exbind_ok h
      obtain ⟨p, h4, h⟩ := exbind_ok h
      obtain ⟨m2, h5, h⟩ := exbind_ok h
      have hp := Except.ok.inj h
      have hm : m2 = m' := congrArg Prod.fst hp
      have hra := congrArg Prod.snd hp
      subst hm
      refine ⟨?_, hra.symm⟩
      obtain ⟨ator, mres⟩ := p
      rw [rwrite_pc_frame h5 (by decide), alloc_init_regs h4]
    case AllocDeInit =>
      obtain ⟨ator, h1, h⟩ := exbind_ok h
      obtain ⟨p, h2, h⟩ := exbind_ok h
      obtain ⟨m2, h3, h⟩ := exbind_ok h
      have hp := Except.ok.inj h
      have hm : m2 = m' := congrArg Prod.fst hp
      have hra := congrArg Prod.snd hp
      subst hm
      refine ⟨?_, hra.symm⟩
      obtain ⟨region, mres⟩ := p
      rw [rwrite_pc_frame h3 (by decide), alloc_deinit_regs h2]
    case AllocAlloc =>
      obtain ⟨ator, h1, h⟩ := exbind_ok h
      obtain ⟨lay, h2, h⟩ := exbind_ok h
      obtain ⟨p, h3, h⟩ := exbind_ok h
      obtain ⟨m2, h4, h⟩ := exbind_ok h
      have hp := Except.ok.inj h
      have hm : m2 = m' := congrArg Prod.fst hp
      have hra := congrArg Prod.snd hp
      subst hm
      refine ⟨?_, hra.symm⟩
      obtain ⟨ation, mres⟩ := p
      rw [rwrite_pc_frame h4 (by decide), alloc_alloc_regs h3]
    case AllocFree =>
      obtain ⟨ator, h1, h⟩ := exbind_ok h
      obtain ⟨ation, h2, h⟩ := exbind_ok h
      obtain ⟨mF, hF, h⟩ := exbind_ok h
      exact absurd hF alloc_free_not_ok
    case AllocFreeAll =>
      obtain ⟨ator, h1, h⟩ := exbind_ok h
      obtain ⟨m2, h2, h⟩ := exbind_ok h
      have hp := Except.ok.inj h
      have hm : m2 = m' := congrArg Prod.fst hp
      have hra := congrArg Prod.snd hp
      subst hm
      refine ⟨?_, hra.symm⟩
      rw [alloc_free_all_regs h2]
    case AllocStat =>
      obtain ⟨ator, h1, h⟩ := exbind_ok h
      obtain ⟨stats, h2, h⟩ := exbind_ok h
      obtain ⟨m2, h3, h⟩ := exbind_ok h
      have hp := Except.ok.inj h
      have hm : m2 = m' := congrArg Prod.fst hp
      have hra := congrArg Prod.snd hp
      subst hm
      refine ⟨?_, hra.symm⟩
      rw [rwrite_ty_pc_frame h3 (by decide)]

/-- The structural search agrees with `2 ^ clog 2 n`. -/
theorem next_power_of_two_eq_clog (n : Nat) :
    next_power_of_two n = 2 ^ Nat.clog 2 n := by
  have h := np2From_eq n n 0 (by intro j hj; omega)
    (by simpa using Nat.le_of_lt (Nat.lt_two_pow n))
  simpa [next_power_of_two] using h

theorem next_power_of_two_ge (n : Nat) : n ≤ next_power_of_two n := by
  rw [next_power_of_two_eq_clog]
  exact Nat.le_pow_clog (by norm_num) n

theorem next_power_of_two_lt_of_not_dvd {k n : Nat}
    (h : ¬ next_power_of_two n % 2 ^ k = 0) : next_power_of_two n < 2 ^ k := by
  rw [next_power_of_two_eq_clog] at h ⊢
  have hk : Nat.clog 2 n < k := by
    by_contra hge
    push_neg at hge
    exact h (Nat.mod_eq_zero_of_dvd (Nat.pow_dvd_pow 2 hge))
  exact Nat.pow_lt_pow_right (by norm_num) hk

theorem next_power_of_two_pow (j : Nat) :
    next_power_of_two (2 ^ j) = 2 ^ j := by
  rw [next_power_of_two_eq_clog, Nat.clog_pow 2 j (by norm_num)]

theorem next_power_of_two_pow_succ (j : Nat) :
    next_power_of_two (2 ^ j + 1) = 2 ^ (j + 1) := by
  rw [next_power_of_two_eq_clog]
  congr 1
  refine clog_eq_of_between _ _ (fun i hi => ?_) ?_
  · have : (2 : Nat) ^ i ≤ 2 ^ j := Nat.pow_le_pow_right (by norm_num) (by omega)
    omega
  · have : (2 : Nat) ^ (j + 1) = 2 ^ j + 2 ^ j := by ring
    have hp : 0 < (2 : Nat) ^ j := Nat.two_pow_pos j
    omega

theorem field_step_bumpAux_pow : ∀ (fuel k j : Nat), j ≤ k → k - j ≤ fuel →
    field_step_bumpAux fuel k (2 ^ j) = 2 ^ k := by
  intro fuel
  induction fuel with
  | zero =>
    intro k j hj hf
    have : j = k := by omega
    subst this
    rfl
  | succ fuel ih =>
    intro k j hj hf
    rw [field_step_bumpAux]
    by_cases hjk : j = k
    · subst hjk
      rw [if_pos (Nat.mod_self _)]
    · have hjlt : j < k := by omega
      have hlt : (2 : Nat) ^ j < 2 ^ k := Nat.pow_lt_pow_right (by norm_num) hjlt
      rw [if_neg (by rw [Nat.mod_eq_of_lt hlt]; exact (Nat.two_pow_pos j).ne'),
        next_power_of_two_pow_succ j]
      exact ih k (j + 1) (by omega) (by omega)

/-- Closed form of the cursor-bump loop: an aligned cursor stays put, and a
misaligned one lands on `max (2 ^ k) (next_power_of_two (cur + 1))`. -/
theorem field_step_bump_closed (k cur : Nat) :
    field_step_bump k cur =
      if cur % 2 ^ k = 0 then cur
      else max (2 ^ k) (next_power_of_two (cur + 1)) := by
  unfold field_step_bump
  rw [show k + 2 = (k + 1) + 1 by omega, field_step_bumpAux]
  by_cases hcur : cur % 2 ^ k = 0
  · rw [if_pos hcur, if_pos hcur]
  · rw [if_neg hcur, if_neg hcur]
    by_cases hm : k ≤ Nat.clog 2 (cur + 1)
    · have hdvd : next_power_of_two (cur + 1) % 2 ^ k = 0 := by
        rw [next_power_of_two_eq_clog]
        exact Nat.mod_eq_zero_of_dvd (Nat.pow_dvd_pow 2 hm)
      have hge : 2 ^ k ≤ next_power_of_two (cur + 1) := by
        rw [next_power_of_two_eq_clog]
        exact Nat.pow_le_pow_right (by norm_num) hm
      rw [field_step_bumpAux, if_pos hdvd]
      exact (Nat.max_eq_right hge).symm
    · push_neg at hm
      have hlt : next_power_of_two (cur + 1) < 2 ^ k := by
        rw [next_power_of_two_eq_clog]
        exact Nat.pow_lt_pow_right (by norm_num) hm
      rw [next_power_of_two_eq_clog,
        field_step_bumpAux_pow (k + 1) k (Nat.clog 2 (cur + 1)) (by omega)
          (by omega)]
      exact (Nat.max_eq_left (Nat.le_of_lt
        (Nat.pow_lt_pow_right (by norm_num) hm))).symm

/-- Claim C6 counterexample: a field of alignment 4 placed when the cursor
is 9 goes to offset 16 (the loop jumps to the next power of two), not to
the least aligned offset 12 that the claim states. -/
theorem field_at_cursor_nine_align_four_is_sixteen :
    (field_step ⟨4, ⟨2⟩⟩ 9).field_offset = 16 ∧
      (field_step ⟨4, ⟨2⟩⟩ 9).field_offset ≠ 12 := by
  decide

/-- Claim C6 (corrected): for every schedule of field layouts, each
field's offset equals the running cursor advanced by the power-of-two bump
loop — aligned cursors stay, misaligned ones land on
`max (2 ^ align) (next_power_of_two (cursor + 1))`, which is the least
aligned multiple only when the cursor does not exceed the alignment — the
cursor then advances by the field's size, and `layout(fields).size` is the
final running cursor. -/
theorem layout_folder_closed_form :
    (∀ (fields : List Layout) (cur : Nat),
      fieldOffsets fields cur = fieldOffsetsSpec fields cur) ∧
    (∀ (fields : List Layout) (al : Align) (cur : Nat),
      (layoutFoldAux fields al cur).size = structSizeSpec fields cur) ∧
    (∀ fields : List Layout, (layout fields).size = structSizeSpec fields 0) := by
  have hoff : ∀ (fields : List Layout) (cur : Nat),
      fieldOffsets fields cur = fieldOffsetsSpec fields cur := by
    intro fields
    induction fields with
    | nil => intro cur; rfl
    | cons f rest ih =>
      intro cur
      simp only [fieldOffsets, fieldOffsetsSpec, field_step,
        field_step_bump_closed, bumpSpec]
      exact congrArg _ (ih _)
  have hsize : ∀ (fields : List Layout) (al : Align) (cur : Nat),
      (layoutFoldAux fields al cur).size = structSizeSpec fields cur := by
    intro fields
    induction fields with
    | nil => intro al cur; rfl
    | cons f rest ih =>
      intro al cur
      simp only [layoutFoldAux, structSizeSpec, field_step,
        field_step_bump_closed, bumpSpec]
      exact ih _ _
  exact ⟨hoff, hsize, fun fields => hsize fields Align.MIN 0⟩

/-- Claim C1 (code bug): `set_addr`, `set_perms`, `seal` and `unseal` all
keep a false validity bit false, but `set_bounds` does not: its validity
computation omits the old validity bit, so narrowing the bounds of an
untagged, unsealed capability yields validity `true`.  The final conjunct
evaluates the code at the failing input. -/
theorem set_bounds_revives_untagged_capability :
    (∀ (k : Capability) (a : Address),
      ((TaggedCapability.new k false).set_addr a).valid = false) ∧
    (∀ (k : Capability) (p : Permissions),
      ((TaggedCapability.new k false).set_perms p).valid = false) ∧
    (∀ (k : Capability) (w : TaggedCapability),
      ((TaggedCapability.new k false).sealWith w).valid = false) ∧
    (∀ (k : Capability) (w : TaggedCapability),
      ((TaggedCapability.new k false).unsealWith w).valid = false) ∧
    ((TaggedCapability.new ⟨⟨0⟩, ⟨0⟩, ⟨0⟩, Permissions.empty, OType.UNSEALED⟩
        false).set_bounds ⟨0⟩ ⟨0⟩).valid = true := by
  refine ⟨fun k a => rfl, fun k p => rfl, fun k w => ?_, fun k w => rfl, by decide⟩
  unfold TaggedCapability.sealWith
  cases OType.try_new w.addr <;> rfl

/-- Claim C2 counterexample: a valid, unsealed capability with only READ
permission grants itself READ|SEAL through `set_perms` and stays valid,
although `{READ, SEAL}` is not a subset of `{READ}`.  (This is what
`alloc::magic_seal` relies on.) -/
theorem set_perms_ignores_seal_bits :
    let c : TaggedCapability :=
      TaggedCapability.new ⟨⟨0⟩, ⟨0⟩, ⟨0⟩, Permissions.READ, OType.UNSEALED⟩ true
    let p : Permissions := ⟨0b00001001⟩
    c.valid = true ∧ c.otype.is_unsealed = true ∧
      c.perms.contains p = false ∧ (c.set_perms p).is_valid = true := by
  decide

/-- Bounded bitwise fact used for claim C2: for three-bit fields, the
subset test `x &&& y == y` coincides with the per-flag implications. -/
theorem three_bit_subset_eq (x y : Fin 8) :
    ((x.val &&& y.val == y.val) : Bool) =
      ((!(y.val &&& 4 == 4) || (x.val &&& 4 == 4)) &&
       (!(y.val &&& 2 == 2) || (x.val &&& 2 == 2)) &&
       (!(y.val &&& 1 == 1) || (x.val &&& 1 == 1))) := by
  revert x y
  decide

/-- Subset of the low three bits, phrased over arbitrary naturals. -/
theorem land7_subset (a b : Nat) :
    ((a &&& 7) &&& (b &&& 7) == b &&& 7) =
      ((!(b &&& 4 == 4) || (a &&& 4 == 4)) &&
       (!(b &&& 2 == 2) || (a &&& 2 == 2)) &&
       (!(b &&& 1 == 1) || (a &&& 1 == 1))) := by
  have ha : a &&& 7 < 8 := Nat.lt_succ_of_le Nat.and_le_right
  have hb : b &&& 7 < 8 := Nat.lt_succ_of_le Nat.and_le_right
  have e4 : ∀ n : Nat, (n &&& 7) &&& 4 = n &&& 4 := fun n => by
    rw [Nat.and_assoc, show (7 : Nat) &&& 4 = 4 by decide]
  have e2 : ∀ n : Nat, (n &&& 7) &&& 2 = n &&& 2 := fun n => by
    rw [Nat.and_assoc, show (7 : Nat) &&& 2 = 2 by decide]
  have e1 : ∀ n : Nat, (n &&& 7) &&& 1 = n &&& 1 := fun n => by
    rw [Nat.and_assoc, show (7 : Nat) &&& 1 = 1 by decide]
  rw [← e4 a, ← e4 b, ← e2 a, ← e2 b, ← e1 a, ← e1 b]
  exact three_bit_subset_eq ⟨a &&& 7, ha⟩ ⟨b &&& 7, hb⟩

/-- Claim C2 (corrected): for a valid capability `c`, `c.set_perms p` is
valid iff `c` is unsealed and the READ/WRITE/EXEC components of `p` are a
subset of those of `c.perms`; the SEAL and UNSEAL bits of `p` are not
constrained. -/
theorem set_perms_validity_iff (k : Capability) (p : Permissions) :
    ((TaggedCapability.new k true).set_perms p).is_valid =
      (k.otype.is_unsealed &&
        ((⟨k.perms.bits &&& 7⟩ : Permissions).contains ⟨p.bits &&& 7⟩)) := by
  show (true && (k.otype.is_unsealed &&
      (!(p.bits &&& 4 == 4) || (k.perms.bits &&& 4 == 4)) &&
      (!(p.bits &&& 2 == 2) || (k.perms.bits &&& 2 == 2)) &&
      (!(p.bits &&& 1 == 1) || (k.perms.bits &&& 1 == 1)))) = _
  rw [Bool.true_and, show ((⟨k.perms.bits &&& 7⟩ : Permissions).contains
    ⟨p.bits &&& 7⟩) = ((k.perms.bits &&& 7) &&& (p.bits &&& 7) == p.bits &&& 7)
    from rfl, land7_subset]
  simp only [Bool.and_assoc]

/-- Witness for claim C2's corrected theorem at a concrete input. -/
theorem set_perms_validity_iff_witness :
    ((TaggedCapability.new
        ⟨⟨0⟩, ⟨0⟩, ⟨0⟩, ⟨0b00000011⟩, OType.UNSEALED⟩ true).set_perms
          ⟨0b00000001⟩).is_valid = true :=
  (set_perms_validity_iff ⟨⟨0⟩, ⟨0⟩, ⟨0⟩, ⟨0b00000011⟩, OType.UNSEALED⟩
      ⟨0b00000001⟩).trans (by decide)

/-- Packing five bounded fields by shifted bitwise-or equals the sum of
the shifted fields. -/
theorem pack_fields_eq_sum (a s e pb ot : Nat) (ha : a < 2 ^ 16)
    (hs : s < 2 ^ 16) (he : e < 2 ^ 16) (hpb : pb < 2 ^ 8)
    (hot : ot < 2 ^ 8) :
    a ||| (s <<< 16) ||| (e <<< 32) ||| (pb <<< 48) ||| (ot <<< 56) =
      a + s * 2 ^ 16 + e * 2 ^ 32 + pb * 2 ^ 48 + ot * 2 ^ 56 := by
  have h1 : a ||| s <<< 16 = 2 ^ 16 * s + a := by
    rw [Nat.lor_comm, Nat.shiftLeft_eq, Nat.mul_comm s]
    exact (Nat.mul_add_lt_is_or ha s).symm
  have hb1 : 2 ^ 16 * s + a < 2 ^ 32 := by omega
  have h2 : (2 ^ 16 * s + a) ||| e <<< 32 = 2 ^ 32 * e + (2 ^ 16 * s + a) := by
    rw [Nat.lor_comm, Nat.shiftLeft_eq, Nat.mul_comm e]
    exact (Nat.mul_add_lt_is_or hb1 e).symm
  have hb2 : 2 ^ 32 * e + (2 ^ 16 * s + a) < 2 ^ 48 := by omega
  have h3 : (2 ^ 32 * e + (2 ^ 16 * s + a)) ||| pb <<< 48 =
      2 ^ 48 * pb + (2 ^ 32 * e + (2 ^ 16 * s + a)) := by
    rw [Nat.lor_comm, Nat.shiftLeft_eq, Nat.mul_comm pb]
    exact (Nat.mul_add_lt_is_or hb2 pb).symm
  have hb3 : 2 ^ 48 * pb + (2 ^ 32 * e + (2 ^ 16 * s + a)) < 2 ^ 56 := by
    omega
  have h4 : (2 ^ 48 * pb + (2 ^ 32 * e + (2 ^ 16 * s + a))) ||| ot <<< 56 =
      2 ^ 56 * ot + (2 ^ 48 * pb + (2 ^ 32 * e + (2 ^ 16 * s + a))) := by
    rw [Nat.lor_comm, Nat.shiftLeft_eq, Nat.mul_comm ot]
    exact (Nat.mul_add_lt_is_or hb3 ot).symm
  rw [h1, h2, h3, h4]
  ring

/-- Claim C9: encode/decode round-trip.  For a capability whose permission
and object-type fields fit their 8-bit encodings, decoding the packed grain
yields a field-by-field equal capability (addresses compare masked to the
16-bit address width, as the derived `PartialEq` does). -/
theorem capability_ugran_round_trip (c : Capability)
    (hp : c.perms.bits < 256) (ho : c.otype.repr < 256) :
    (Capability.from_ugran c.to_ugran).eqv c = true := by
  obtain ⟨⟨a⟩, ⟨s⟩, ⟨e⟩, ⟨pb⟩, ⟨ot⟩⟩ := c
  dsimp only at hp ho
  have ha : a % 2 ^ 16 < 2 ^ 16 := Nat.mod_lt _ (by norm_num)
  have hs : s % 2 ^ 16 < 2 ^ 16 := Nat.mod_lt _ (by norm_num)
  have he : e % 2 ^ 16 < 2 ^ 16 := Nat.mod_lt _ (by norm_num)
  have hpack := pack_fields_eq_sum (a % 2 ^ 16) (s % 2 ^ 16) (e % 2 ^ 16)
    pb ot ha hs he hp ho
  simp only [Capability.to_ugran, Address.get]
  rw [hpack]
  simp only [Capability.from_ugran, Capability.eqv, Address.eqv, Address.get,
    Permissions.from_bits_retain, OType.new, Nat.shiftRight_zero,
    Nat.shiftRight_eq_div_pow, Nat.and_pow_two_sub_one_eq_mod,
    Bool.and_eq_true, beq_iff_eq]
  refine ⟨⟨⟨⟨?_, ?_⟩, ?_⟩, ?_⟩, ?_⟩ <;> omega

/-- Witness for claim C9's theorem at a concrete input. -/
theorem capability_ugran_round_trip_witness :
    (Capability.from_ugran
        (Capability.to_ugran
          ⟨⟨70000⟩, ⟨3⟩, ⟨500⟩, ⟨0b10101⟩, ⟨7⟩⟩)).eqv
      ⟨⟨70000⟩, ⟨3⟩, ⟨500⟩, ⟨0b10101⟩, ⟨7⟩⟩ = true :=
  capability_ugran_round_trip ⟨⟨70000⟩, ⟨3⟩, ⟨500⟩, ⟨0b10101⟩, ⟨7⟩⟩
    (by decide) (by decide)


/-- Claim C4 (code bug): integer, bool and Align writes clear every tag
bit of the slice they are handed, and a TaggedCapability write sets
exactly the one bit of the target granule to the source validity; but a
`Layout` write at an address congruent to `8 mod UGRAN_SIZE` leaves the
tag bit of the second overlapped granule untouched, because
`StructMut::write_next` starts the tag sub-slice at
`gran_span(addr, offset)` — the index of the last granule of the span
`[addr, addr+offset)` — instead of at the granule index of
`addr + offset`.  The final conjunct evaluates the failing input: both
tag bits start true, the second stays true. -/
theorem ty_write_tag_conservation :
    (∀ (len v : Nat) (dst : List Nat) (addr : Address) (valid : List Bool),
      ((tagsOfWrite ((intTy len).write v dst addr valid)).all
        fun b => !b) = true) ∧
    (∀ (b : Bool) (dst : List Nat) (addr : Address) (valid : List Bool),
      ((tagsOfWrite (boolTy.write b dst addr valid)).all fun b => !b) =
        true) ∧
    (∀ (a : Align) (dst : List Nat) (addr : Address) (valid : List Bool),
      ((tagsOfWrite (alignTy.write a dst addr valid)).all fun b => !b) =
        true) ∧
    (∀ (t : TaggedCapability) (dst : List Nat) (addr : Address) (b0 : Bool),
      tagsOfWrite (taggedCapabilityTy.write t dst addr [b0]) =
        [t.is_valid]) ∧
    layoutTy.write ⟨1, ⟨0⟩⟩ (List.replicate 16 85) ⟨8⟩ [true, true] =
      .ok ([1, 0, 0, 0, 0, 0, 0, 0, 1, 0, 0, 0, 0, 0, 0, 0],
        [false, true]) := by
  have hall : ∀ n : Nat, ((List.replicate n false).all fun b => !b) = true := by
    intro n
    simp [List.all_eq_true, List.mem_replicate]
  refine ⟨?_, ?_, ?_, ?_, by decide⟩
  · intro len v dst addr valid
    exact hall valid.length
  · intro b dst addr valid
    exact hall valid.length
  · intro a dst addr valid
    exact hall valid.length
  · intro t dst addr b0
    rfl

theorem leastAlignedGE_ge (al A : Nat) (h : 0 < al) :
    A ≤ leastAlignedGE al A := by
  unfold leastAlignedGE
  have hdm := Nat.div_add_mod (A + al - 1) al
  have hmlt : (A + al - 1) % al < al := Nat.mod_lt _ h
  rw [Nat.mul_comm]
  omega

theorem leastAlignedGE_of_mod_eq (al A : Nat) (h : 0 < al)
    (hd : A % al = 0) : leastAlignedGE al A = A := by
  unfold leastAlignedGE
  obtain ⟨q, hq⟩ : al ∣ A := Nat.dvd_of_mod_eq_zero hd
  subst hq
  rw [show al * q + al - 1 = al * q + (al - 1) by omega, Nat.mul_add_div h,
    Nat.div_eq_of_lt (by omega), Nat.add_zero, Nat.mul_comm]

/-- Claim C5 counterexample: on a bump allocator whose state capability is
sealed (otype 0), with bump pointer 0, region `[0, 16]` and a request of
size 8 and alignment 1, the claim demands `Ok`, but the code returns
`NotEnoughMem` because `set_addr`/`set_bounds` invalidate sealed
capabilities. -/
theorem bump_alloc_sealed_returns_not_enough_mem :
    (BumpAlloc.mk ⟨⟨⟨0⟩, ⟨0⟩, ⟨16⟩, ⟨0⟩, ⟨0⟩⟩, true⟩).inner.start.get ≤
        (BumpAlloc.mk ⟨⟨⟨0⟩, ⟨0⟩, ⟨16⟩, ⟨0⟩, ⟨0⟩⟩, true⟩).inner.addr.get ∧
      (BumpAlloc.mk ⟨⟨⟨0⟩, ⟨0⟩, ⟨16⟩, ⟨0⟩, ⟨0⟩⟩, true⟩).inner.addr.get ≤
        (BumpAlloc.mk ⟨⟨⟨0⟩, ⟨0⟩, ⟨16⟩, ⟨0⟩, ⟨0⟩⟩, true⟩).inner.endb.get ∧
      (BumpAlloc.mk ⟨⟨⟨0⟩, ⟨0⟩, ⟨16⟩, ⟨0⟩, ⟨0⟩⟩, true⟩).inner.addr.get ≠
        (BumpAlloc.mk ⟨⟨⟨0⟩, ⟨0⟩, ⟨16⟩, ⟨0⟩, ⟨0⟩⟩, true⟩).inner.endb.get ∧
      leastAlignedGE 1 0 + 8 ≤ 16 ∧
      (BumpAlloc.mk ⟨⟨⟨0⟩, ⟨0⟩, ⟨16⟩, ⟨0⟩, ⟨0⟩⟩, true⟩).alloc ⟨.Bump, ⟨3⟩⟩
          ⟨8, ⟨0⟩⟩ =
        .error ⟨(BumpAlloc.mk ⟨⟨⟨0⟩, ⟨0⟩, ⟨16⟩, ⟨0⟩, ⟨0⟩⟩, true⟩).stat
          ⟨.Bump, ⟨3⟩⟩, ⟨8, ⟨0⟩⟩, .NotEnoughMem⟩ := by
  decide

/-- Claim C5 (corrected): the bump-allocation contract as stated, under
the two extra provisos the code imposes: the state capability must be
unsealed, and the aligned pointer plus the requested size must not
overflow the 16-bit address width. -/
theorem bump_alloc_characterization (b : BumpAlloc) (hdr : Header)
    (l : Layout) (hunseal : b.inner.otype.is_unsealed = true)
    (hsa : b.inner.start.get ≤ b.inner.addr.get)
    (hae : b.inner.addr.get ≤ b.inner.endb.get)
    (hnof : leastAlignedGE l.align.get b.inner.addr.get + l.size < 2 ^ 16) :
    (b.inner.addr.get = b.inner.endb.get →
      b.alloc hdr l = .error ⟨b.stat hdr, l, .Oom⟩) ∧
    (b.inner.addr.get ≠ b.inner.endb.get →
      (leastAlignedGE l.align.get b.inner.addr.get + l.size ≤
          b.inner.endb.get →
        ∃ t b', b.alloc hdr l = .ok (t, b') ∧
          t.start.get = leastAlignedGE l.align.get b.inner.addr.get ∧
          t.addr.get = leastAlignedGE l.align.get b.inner.addr.get ∧
          t.endb.get = leastAlignedGE l.align.get b.inner.addr.get + l.size ∧
          b'.inner.addr.get =
            leastAlignedGE l.align.get b.inner.addr.get + l.size) ∧
      (b.inner.endb.get <
          leastAlignedGE l.align.get b.inner.addr.get + l.size →
        b.alloc hdr l = .error ⟨b.stat hdr, l, .NotEnoughMem⟩)) := by
  have hal : 0 < l.align.get := Nat.two_pow_pos l.align.exp
  have hunsealc : b.inner.capa.otype.is_unsealed = true := hunseal
  have hsac : b.inner.capa.start.get ≤ b.inner.capa.addr.get := hsa
  have haec : b.inner.capa.addr.get ≤ b.inner.capa.endb.get := hae
  have hnofc :
      leastAlignedGE l.align.get b.inner.capa.addr.get + l.size < 2 ^ 16 :=
    hnof
  have hAav : b.inner.capa.addr.get ≤
      leastAlignedGE l.align.get b.inner.capa.addr.get :=
    leastAlignedGE_ge _ _ hal
  -- the aligned cursor value, as computed by `align_to`
  have halign : (b.inner.capa.addr.align_to l.align).get =
      leastAlignedGE l.align.get b.inner.capa.addr.get := by
    unfold Address.align_to
    by_cases hmod : b.inner.capa.addr.get % l.align.get = 0
    · rw [if_pos (by simp [Address.is_aligned_to, hmod]),
        leastAlignedGE_of_mod_eq _ _ hal hmod]
    · rw [if_neg (by simp [Address.is_aligned_to, hmod])]
      show leastAlignedGE l.align.get b.inner.capa.addr.get % 2 ^ 16 = _
      exact Nat.mod_eq_of_lt (by omega)
  have hraw : (b.inner.capa.addr.align_to l.align).raw % 2 ^ 16 =
      leastAlignedGE l.align.get b.inner.capa.addr.get := halign
  have hendb : ((b.inner.capa.addr.align_to l.align).add l.size).get =
      leastAlignedGE l.align.get b.inner.capa.addr.get + l.size := by
    show ((b.inner.capa.addr.align_to l.align).raw + l.size) % uaddrMod %
        2 ^ 16 = _
    rw [Nat.mod_mod_of_dvd _ (by norm_num [uaddrMod]), Nat.add_mod, hraw,
      Nat.mod_eq_of_lt (show l.size < 2 ^ 16 by omega)]
    exact Nat.mod_eq_of_lt (by omega)
  refine ⟨fun hEq => ?_, fun hNe => ⟨fun hfit => ?_, fun hover => ?_⟩⟩
  · unfold BumpAlloc.alloc
    rw [if_pos (by simp [hEq])]
  · simp only [BumpAlloc.alloc]
    rw [if_neg (by simp [hNe])]
    have hvalid : ((b.inner.set_addr (b.inner.addr.align_to l.align)).set_bounds
        ((b.inner.set_addr (b.inner.addr.align_to l.align)).addr)
        (((b.inner.set_addr (b.inner.addr.align_to l.align)).addr).add
          l.size)).is_valid = true := by
      simp only [TaggedCapability.set_bounds, TaggedCapability.is_valid,
        TaggedCapability.set_addr, TaggedCapability.otype,
        TaggedCapability.start, TaggedCapability.endb, TaggedCapability.addr,
        Capability.set_addr, Bool.and_eq_true, decide_eq_true_eq]
      refine ⟨⟨⟨hunsealc, ?_⟩, ?_⟩, ?_⟩
      · rw [halign]
        omega
      · rw [hendb]
        have hfitc : leastAlignedGE l.align.get b.inner.capa.addr.get +
            l.size ≤ b.inner.capa.endb.get := hfit
        exact hfitc
      · rw [halign, hendb]
        omega
    rw [if_pos hvalid]
    exact ⟨_, _, rfl, halign, halign, hendb, hendb⟩
  · simp only [BumpAlloc.alloc]
    rw [if_neg (by simp [hNe])]
    rw [if_neg (show ¬ (((b.inner.set_addr
        (b.inner.addr.align_to l.align)).set_bounds
        ((b.inner.set_addr (b.inner.addr.align_to l.align)).addr)
        (((b.inner.set_addr (b.inner.addr.align_to l.align)).addr).add
          l.size)).is_valid = true) from by
      simp only [TaggedCapability.set_bounds, TaggedCapability.is_valid,
        TaggedCapability.set_addr, TaggedCapability.otype,
        TaggedCapability.start, TaggedCapability.endb, TaggedCapability.addr,
        Capability.set_addr, Bool.and_eq_true, decide_eq_true_eq]
      rintro ⟨⟨⟨-, -⟩, hle⟩, -⟩
      rw [hendb] at hle
      have hoverc : b.inner.capa.endb.get <
          leastAlignedGE l.align.get b.inner.capa.addr.get + l.size := hover
      omega)]

/-- Witness for claim C5's corrected theorem: an unsealed allocator with
bump pointer 9, region `[0, 32]`, and a request of size 4 aligned to 4
yields the allocation `[12, 16)` and bump pointer 16. -/
theorem bump_alloc_characterization_witness :
    ∃ t b', (BumpAlloc.mk ⟨⟨⟨9⟩, ⟨0⟩, ⟨32⟩, ⟨0b111⟩, ⟨255⟩⟩, true⟩).alloc
        ⟨.Bump, ⟨0⟩⟩ ⟨4, ⟨2⟩⟩ = .ok (t, b') ∧
      t.start.get = 12 ∧ t.addr.get = 12 ∧ t.endb.get = 16 ∧
      b'.inner.addr.get = 16 := by
  have h := ((bump_alloc_characterization
    (BumpAlloc.mk ⟨⟨⟨9⟩, ⟨0⟩, ⟨32⟩, ⟨0b111⟩, ⟨255⟩⟩, true⟩) ⟨.Bump, ⟨0⟩⟩
    ⟨4, ⟨2⟩⟩ (by decide) (by decide) (by decide) (by decide)).2
      (by decide)).1 (by decide)
  simpa [leastAlignedGE] using h


/-- Projection fact used in the memory-safety proofs. -/
theorem set_bounds_addr (t : TaggedCapability) (s e : Address) :
    (t.set_bounds s e).addr = t.addr := rfl

/-- Claim C8: after any sequence of register writes (`write`,
`write_data`, `write_ty` — including writes of valid tagged capabilities
to register 0), reading register 0 yields data 0 and an untagged
capability: `read_data` returns 0 and `read` returns validity false. -/
theorem zero_register_reads_zero_after_writes :
    ∀ (ops : List RegWriteOp) (regs : List Capability) (tags : List Bool),
      Registers.read_data (ops.foldl applyRegWrite (regs, tags)).1 0 =
        .ok 0 ∧
      Registers.read (ops.foldl applyRegWrite (regs, tags)).1
          (ops.foldl applyRegWrite (regs, tags)).2 0 =
        .ok (TaggedCapability.new (Capability.from_ugran 0) false) :=
  fun _ _ _ => ⟨rfl, rfl⟩

/-- Claim C10: `Memory::read`/`Memory::write` are total over arbitrary
capability arguments and arbitrary `Ty` implementations: a successful
access implies the byte range and the tag range lie inside the byte array
and the tag controller, and a failed checked lookup (`slice_raw` or
`grans` returning `None`) yields the `InvalidMemAccess` exception rather
than an out-of-range access. -/
theorem memory_access_totality {α : Type} (ty : TyImpl α) (m : Memory)
    (src dst : TaggedCapability) (val : α) :
    (∀ v, Memory.readT ty m src = .ok v →
      src.addr.get + ty.layout.size ≤ m.mem.length ∧
      TagController.gran_to_idx src.addr.gran +
        gran_span src.addr ty.layout.size < m.tags.length) ∧
    (∀ m', Memory.writeT ty m dst val = .ok m' →
      dst.addr.get + ty.layout.size ≤ m.mem.length ∧
      TagController.gran_to_idx dst.addr.gran +
        gran_span dst.addr ty.layout.size < m.tags.length) ∧
    (Memory.slice_raw m.mem
        (src.set_bounds src.addr (src.addr.add ty.layout.size)) ty.layout =
          none →
      Memory.readT ty m src =
        .error (.InvalidMemAccess
          (src.access .Read ty.layout.align (some ty.layout.size)))) ∧
    (TagController.grans m.tags src.addr ty.layout.size = none →
      Memory.readT ty m src =
        .error (.InvalidMemAccess
          (src.access .Read ty.layout.align (some ty.layout.size)))) := by
  have hslice : ∀ (cap : TaggedCapability) (bytes : List Nat),
      Memory.slice_raw m.mem cap ty.layout = some bytes →
      cap.addr.get + ty.layout.size ≤ m.mem.length := by
    intro cap bytes h
    simp only [Memory.slice_raw] at h
    split at h
    · split at h
      · rename_i h1 h2
        rw [List.length_drop] at h2
        omega
      · exact absurd h (by simp)
    · exact absurd h (by simp)
  have hgrans : ∀ (a : Address) (bits : List Bool),
      TagController.grans m.tags a ty.layout.size = some bits →
      TagController.gran_to_idx a.gran + gran_span a ty.layout.size <
        m.tags.length := by
    intro a bits h
    simp only [TagController.grans] at h
    split at h
    · split at h
      · rename_i h1 h2
        rw [List.length_drop] at h2
        omega
      · exact absurd h (by simp)
    · exact absurd h (by simp)
  refine ⟨?_, ?_, ?_, ?_⟩
  · intro v h
    simp only [Memory.readT] at h
    split at h
    · exact absurd h (by simp)
    · split at h
      · exact absurd h (by simp)
      · split at h
        · exact absurd h (by simp)
        · exact ⟨hslice _ _ (by assumption), hgrans _ _ (by assumption)⟩
  · intro m' h
    simp only [Memory.writeT] at h
    split at h
    · exact absurd h (by simp)
    · split at h
      · exact absurd h (by simp)
      · split at h
        · exact absurd h (by simp)
        · split at h
          · exact absurd h (by simp)
          · exact ⟨hslice _ _ (by assumption), hgrans _ _ (by assumption)⟩
  · intro hnone
    simp only [Memory.readT]
    split
    · rename_i e he
      unfold TaggedCapability.check_given_access at he
      split at he
      · exact absurd he (by simp)
      · simp only [Except.error.injEq] at he
        rw [← he]
    · rw [hnone]
  · intro hnone
    simp only [Memory.readT]
    split
    · rename_i e he
      unfold TaggedCapability.check_given_access at he
      split at he
      · exact absurd he (by simp)
      · simp only [Except.error.injEq] at he
        rw [← he]
    · split
      · rfl
      · rename_i bytes hbytes
        rw [show (src.set_bounds src.addr
            (src.addr.add ty.layout.size)).addr = src.addr from rfl, hnone]

/-- Witness for claim C10's theorem: a concrete in-bounds read through a
valid READ capability over a 16-byte, one-granule memory. -/
theorem memory_access_totality_witness :
    (TaggedCapability.new ⟨⟨0⟩, ⟨0⟩, ⟨16⟩, ⟨1⟩, ⟨255⟩⟩ true).addr.get +
        (intTy 1).layout.size ≤
      (Memory.mk (List.replicate 16 0) [] (List.replicate 33 false)
        TaggedCapability.INVALID).mem.length ∧
    TagController.gran_to_idx
        (TaggedCapability.new ⟨⟨0⟩, ⟨0⟩, ⟨16⟩, ⟨1⟩, ⟨255⟩⟩ true).addr.gran +
      gran_span (TaggedCapability.new ⟨⟨0⟩, ⟨0⟩, ⟨16⟩, ⟨1⟩, ⟨255⟩⟩
        true).addr (intTy 1).layout.size <
      (Memory.mk (List.replicate 16 0) [] (List.replicate 33 false)
        TaggedCapability.INVALID).tags.length :=
  (memory_access_totality (intTy 1)
    (Memory.mk (List.replicate 16 0) [] (List.replicate 33 false)
      TaggedCapability.INVALID)
    (TaggedCapability.new ⟨⟨0⟩, ⟨0⟩, ⟨16⟩, ⟨1⟩, ⟨255⟩⟩ true)
    (TaggedCapability.new ⟨⟨0⟩, ⟨0⟩, ⟨16⟩, ⟨1⟩, ⟨255⟩⟩ true) 0).1 0
    (by decide)

/-- Claim C3 (code bug): a machine whose register 5 holds a valid
capability spanning `[0, 64]`; revoking `[16, 24]` — an interval strictly
enclosed by the capability's bounds, so the two intervals intersect —
leaves the tag set, because `revoke::by_bounds` only clears a bit when one
of the capability's endpoints lies inside the revoked span.  The final
conjunct also records that `Granule::addr` sends granule 0 to byte
address 16 (it adds `UGRAN_SIZE` instead of multiplying), so the
memory-granule path reconstructs capabilities from the wrong bytes. -/
theorem revoke_misses_enclosing_capability :
    revoke.by_bounds
        (Memory.mk (List.replicate 16 0)
          ((List.replicate 32 Capability.INVALID).set 5
            ⟨⟨0⟩, ⟨0⟩, ⟨64⟩, ⟨0⟩, ⟨255⟩⟩)
          ((List.replicate 33 false).set 5 true)
          TaggedCapability.INVALID) ⟨16⟩ ⟨24⟩ =
      .ok (Memory.mk (List.replicate 16 0)
        ((List.replicate 32 Capability.INVALID).set 5
          ⟨⟨0⟩, ⟨0⟩, ⟨64⟩, ⟨0⟩, ⟨255⟩⟩)
        ((List.replicate 33 false).set 5 true)
        TaggedCapability.INVALID) ∧
    ((List.replicate 33 false).set 5 true).getD 5 false = true ∧
    (0 : Nat) ≤ 16 ∧ (24 : Nat) ≤ 64 ∧
    (Granule.addr 0).get = 16 := by
  decide


/-- C7: the claim fails as stated — a `Cpy` instruction, which is not a
jump or branch, can name `Pc` as its destination register; on the machine
below the step completes without an exception, yet afterwards `Pc` holds
the copied word's address `0x5555` (the uninit pattern of the invalid
capability in register 4) rather than the fetch address plus
`Op::LAYOUT.size = 64`. -/
theorem cpy_can_overwrite_pc :
    OpKind.is_jump_or_branch .Cpy = false ∧
    ((Memory.execute_next
        ⟨(((List.replicate 64 0).set 0 10).set 16 1).set 32 4,
          (List.replicate 32 Capability.INVALID).set 1
            ⟨⟨0⟩, ⟨0⟩, ⟨64⟩, ⟨5⟩, ⟨255⟩⟩,
          (List.replicate 36 false).set 1 true,
          TaggedCapability.INVALID⟩).toOption.map
      (fun m' => (m'.regs.getD 1 Capability.INVALID).addr.get)) =
        some 0x5555 ∧
    (0 + opTy.layout.size) % 2 ^ 16 = 64 := by
  refine ⟨rfl, by decide, by decide⟩

/-- C7 (amended): for every execution step that completes without an
exception, whose fetched instruction is not a jump or branch AND whose
destination-register operands do not name `Pc`, the address held in the
`Pc` register afterwards equals the fetch address plus exactly
`Op::LAYOUT.size` bytes (modulo the 16-bit address width). -/
theorem pc_advances_by_op_size_for_non_pc_writing_ops
    (m m' : Memory) (pc : TaggedCapability) (op : Op)
    (hlen : 1 < m.regs.length)
    (hpc : m.rread 1 = .ok pc)
    (hop : Memory.readT opTy m pc = .ok op)
    (hjump : OpKind.is_jump_or_branch op.kind = false)
    (hdst : Op.writes_pc op = false)
    (hexec : m.execute_next = .ok m') :
    (m'.regs.getD 1 Capability.INVALID).addr.get =
      (pc.addr.get + opTy.layout.size) % 2 ^ 16 := by
  simp only [Memory.execute_next] at hexec
  obtain ⟨pc2, hpc2, hexec⟩ := exbind_ok hexec
  rw [hpc] at hpc2
  have hpc2 := Except.ok.inj hpc2
  subst hpc2
  obtain ⟨op2, hop2, hexec⟩ := exbind_ok hexec
  rw [hop] at hop2
  have hop2 := Except.ok.inj hop2
  subst hop2
  obtain ⟨u, hchk, hexec⟩ := exbind_ok hexec
  simp only [Memory.execute_op] at hexec
  obtain ⟨pc3, hpc3, hexec⟩ := exbind_ok hexec
  have hpc3 := expure_ok hpc3
  subst hpc3
  obtain ⟨m1, hw1, hexec⟩ := exbind_ok hexec
  obtain ⟨r, hdisp, hexec⟩ := exbind_ok hexec
  obtain ⟨m2, ra⟩ := r
  obtain ⟨hpres, hra⟩ :=
    execute_dispatch_pc_frame m1 op pc _ m2 ra hjump hdst hdisp
  subst hra
  have hm2 := expure_ok hexec
  subst hm2
  have hv := rwrite_pc_value hw1 hlen
  rw [hpres, hv]
  simp only [TaggedCapability.set_addr, Capability.set_addr, Address.add,
    Address.get, if_true, uaddrMod]
  have h64 : (opTy.layout.size : Nat) = 64 := rfl
  rw [h64]
  omega

/-- C7 witness: a concrete `Cpy` into register `Ra` advances `Pc` from 0
to 64. -/
theorem pc_advances_by_op_size_for_non_pc_writing_ops_witness :
    ((Memory.execute_next
        ⟨(((List.replicate 64 0).set 0 10).set 16 2).set 32 4,
          (List.replicate 32 Capability.INVALID).set 1
            ⟨⟨0⟩, ⟨0⟩, ⟨64⟩, ⟨5⟩, ⟨255⟩⟩,
          (List.replicate 36 false).set 1 true,
          TaggedCapability.INVALID⟩).toOption.map
      (fun m' => (m'.regs.getD 1 Capability.INVALID).addr.get)) =
      some ((((⟨⟨⟨0⟩, ⟨0⟩, ⟨64⟩, ⟨5⟩, ⟨255⟩⟩, true⟩ :
        TaggedCapability).addr.get) + opTy.layout.size) % 2 ^ 16) := by
  cases hE : Memory.execute_next
      ⟨(((List.replicate 64 0).set 0 10).set 16 2).set 32 4,
        (List.replicate 32 Capability.INVALID).set 1
          ⟨⟨0⟩, ⟨0⟩, ⟨64⟩, ⟨5⟩, ⟨255⟩⟩,
        (List.replicate 36 false).set 1 true,
        TaggedCapability.INVALID⟩ with
  | ok m' =>
    simp only [Except.toOption, Option.map]
    rw [pc_advances_by_op_size_for_non_pc_writing_ops _ m'
      ⟨⟨⟨0⟩, ⟨0⟩, ⟨64⟩, ⟨5⟩, ⟨255⟩⟩, true⟩
      ⟨.Cpy, ⟨Capability.from_ugran 2, false⟩, ⟨Capability.from_ugran 4, false⟩,
        ⟨Capability.from_ugran 0, false⟩⟩
      (by decide) (by decide) (by decide) (by decide) (by decide) hE]
  | error e =>
    have hok : (Memory.execute_next
        ⟨(((List.replicate 64 0).set 0 10).set 16 2).set 32 4,
          (List.replicate 32 Capability.INVALID).set 1
            ⟨⟨0⟩, ⟨0⟩, ⟨64⟩, ⟨5⟩, ⟨255⟩⟩,
          (List.replicate 36 false).set 1 true,
          TaggedCapability.INVALID⟩).toOption ≠ none := by decide
    rw [hE] at hok
    simp [Except.toOption] at hok


end ToyCheri
